import Mathlib

/-!
# YashzCTF scoring backend: progress and scoring rules of `main.go`

A shallow embedding of the request handlers of `main.go` and of the MongoDB
`users` collection they work on, followed by the properties of the progress
engine (current level, flag submission, reset, lazy creation).

Modelling conventions

* The `users` collection is a list of documents in natural order.  `FindOne`,
  `UpdateOne`, `FindOneAndUpdate` and `DeleteOne` with the filter
  `{"username": id}` act on the first document whose `username` equals `id`;
  `InsertOne` appends.  The code creates no unique index, so the list may hold
  several documents with one username; every theorem below holds for such
  collections too.
* A driver call either succeeds or fails.  Which calls fail is an input of each
  handler (`Faults`); a failed call returns an error other than
  `mongo.ErrNoDocuments`.  A failed read has no effect.  A failed write either
  was not applied (`Outcome.failed`) or was applied by the server before the
  error reached the handler, as with a lost reply or the 5 s deadline
  (`Outcome.failedApplied`).
* The `_id` of a document is chosen by the driver and read by no handler; it is
  left out of `User`.
* Go `int` is the 64-bit signed integer: values are `Int`s and the two
  additions of the handlers, `max + 1` on a solved level and `Score + points`,
  wrap around (`wrap64`).  On every record the handlers can produce the levels
  are at most 10 and the score at most 3700 (`run_bounded`).
* Concurrent requests are interleavings of the driver calls of the handlers:
  `threadStep` is `checkFlagHandler` cut at its driver calls, and a schedule
  picks the request that makes its next call (`runSchedule`).
* A handler gets the decoded request (query parameter or JSON body fields) and
  returns the collection after the request together with the HTTP response.
-/

namespace YashzCTF

/-! ## Data model -/

/-- One entry of the `challenges` table (`level`, `flag`, `points`). -/
structure Challenge where
  level : Int
  flag : String
  points : Int
deriving DecidableEq, Repr

/-- The `challenges` table of `main.go`, in definition order. -/
def challenges : List Challenge :=
  [ ⟨1, "flag{welcome_to_the_game}", 100⟩,
    ⟨2, "flag{docker_is_fun}", 150⟩,
    ⟨3, "flag{sql_mastery_achieved}", 200⟩,
    ⟨4, "flag{reverse_engineering}", 250⟩,
    ⟨5, "flag{crypto_beginner}", 300⟩,
    ⟨6, "flag{forensics_time}", 350⟩,
    ⟨7, "flag{pwn_it}", 400⟩,
    ⟨8, "flag{web_2_0}", 450⟩,
    ⟨9, "flag{network_ninja}", 500⟩,
    ⟨10, "flag{ctf_mastery}", 1000⟩ ]

/-- The `User` document (without `_id`). -/
structure User where
  Username : String
  Password : String
  Score : Int
  SolvedLevels : List Int
deriving DecidableEq, Repr

/-- The `users` collection: its documents in natural order. -/
abbrev Store := List User

/-- How a write call ends: without error, with an error and no effect, or with
an error although the server applied the write. -/
inductive Outcome where
  | ok
  | failed
  | failedApplied
deriving DecidableEq, Repr

/-- Which driver calls of a request fail (with an error other than
`mongo.ErrNoDocuments`): whether the read `FindOne` fails, and how each write
ends. -/
structure Faults where
  FindOne : Bool
  InsertOne : Outcome
  UpdateOne : Outcome
  FindOneAndUpdate : Outcome
  DeleteOne : Outcome
deriving DecidableEq, Repr

/-- A working store: no driver call fails. -/
def noFaults : Faults := ⟨false, .ok, .ok, .ok, .ok⟩

/-- The value of a Go `int` expression whose exact result is `x`: the result
modulo 2^64, taken between -2^63 and 2^63 - 1. -/
def wrap64 (x : Int) : Int :=
  (x + 9223372036854775808) % 18446744073709551616 - 9223372036854775808

/-- The values of a Go `int`. -/
def IsInt64 (x : Int) : Prop :=
  -9223372036854775808 ≤ x ∧ x ≤ 9223372036854775807

instance decidableIsInt64 (x : Int) : Decidable (IsInt64 x) :=
  inferInstanceAs (Decidable (-9223372036854775808 ≤ x ∧ x ≤ 9223372036854775807))

/-- An HTTP response: `http.Error` with a status and a message, or the encoded
JSON body with status 200. -/
inductive Response (α : Type) where
  | error (status : Nat) (msg : String) : Response α
  | json (body : α) : Response α
deriving DecidableEq, Repr

/-- The body of a `/checkFlag` answer: `{"correct": ..., "newLevel": ...}`. -/
structure FlagResult where
  correct : Bool
  newLevel : Int
deriving DecidableEq, Repr

/-! ## Driver operations on the collection -/

/-- `usersColl.FindOne(ctx, {"username": id})`: the first matching document;
`none` is `mongo.ErrNoDocuments`. -/
def FindOne (coll : Store) (id : String) : Option User :=
  coll.find? (fun u => u.Username == id)

/-- `usersColl.InsertOne(ctx, user)`. -/
def InsertOne (coll : Store) (user : User) : Store :=
  coll ++ [user]

/-- `usersColl.UpdateOne(ctx, {"username": id}, {"$set": {"solvedLevels": sl,
"score": sc}})`: both fields of the first matching document are set in one
write; no document matching is not an error. -/
def UpdateOne : Store → String → List Int → Int → Store
  | [], _, _, _ => []
  | u :: rest, id, sl, sc =>
    if u.Username == id then { u with SolvedLevels := sl, Score := sc } :: rest
    else u :: UpdateOne rest id sl sc

/-- `usersColl.FindOneAndUpdate(ctx, {"username": id}, {"$set": ...})`: the
collection after the update and the document found (`none` is
`mongo.ErrNoDocuments`). -/
def FindOneAndUpdate (coll : Store) (id : String) (sl : List Int) (sc : Int) :
    Store × Option User :=
  match FindOne coll id with
  | none => (coll, none)
  | some u => (UpdateOne coll id sl sc, some u)

/-- `usersColl.DeleteOne(ctx, {"username": id})`: the collection without the
first matching document, and `DeletedCount`. -/
def DeleteOne : Store → String → Store × Nat
  | [], _ => ([], 0)
  | u :: rest, id =>
    if u.Username == id then (rest, 1)
    else (u :: (DeleteOne rest id).1, (DeleteOne rest id).2)

/-! ## Handlers -/

/-- The body of `getCurrentLevelForUser`; `none` is the `nil` pointer. -/
def getCurrentLevelForUser (user : Option User) : Int :=
  match user with
  | none => 1
  | some u =>
    if u.SolvedLevels.length = 0 then 1
    else wrap64 (u.SolvedLevels.foldl (fun max v => if v > max then v else max) 0 + 1)

/-- The `/getLevel` handler on the query parameter `userId`. -/
def getLevelHandler (coll : Store) (f : Faults) (userId : String) :
    Store × Response Int :=
  if userId = "" then (coll, .error 400 "userId is required")
  else if f.FindOne then (coll, .error 500 "database error")
  else
    match FindOne coll userId with
    | none =>
      let user : User := ⟨userId, "", 0, []⟩
      match f.InsertOne with
      | .failed => (coll, .error 500 "failed to create user")
      | .failedApplied => (InsertOne coll user, .error 500 "failed to create user")
      | .ok => (InsertOne coll user, .json (getCurrentLevelForUser (some user)))
    | some user => (coll, .json (getCurrentLevelForUser (some user)))

/-- The part of `checkFlagHandler` after the user document is in hand
(lines 134-168): catalog lookup by flag, the already-solved test, and the
update. -/
def checkFlagBody (coll : Store) (f : Faults) (userId flag : String) (user : User) :
    Store × Response FlagResult :=
  let found := challenges.find? (fun c => c.flag == flag)
  let currentLevel := getCurrentLevelForUser (some user)
  match found with
  | none => (coll, .json ⟨false, currentLevel⟩)
  | some c =>
    let levelNum := c.level
    if levelNum ∈ user.SolvedLevels then
      (coll, .json ⟨true, getCurrentLevelForUser (some user)⟩)
    else
      let user1 : User :=
        { user with SolvedLevels := user.SolvedLevels ++ [levelNum],
                    Score := wrap64 (user.Score + c.points) }
      match f.UpdateOne with
      | .failed => (coll, .error 500 "failed to update user")
      | .failedApplied =>
        (UpdateOne coll userId user1.SolvedLevels user1.Score,
          .error 500 "failed to update user")
      | .ok =>
        (UpdateOne coll userId user1.SolvedLevels user1.Score,
          .json ⟨true, getCurrentLevelForUser (some user1)⟩)

/-- The `/checkFlag` handler on the decoded body fields `userId` and `flag`. -/
def checkFlagHandler (coll : Store) (f : Faults) (userId flag : String) :
    Store × Response FlagResult :=
  if userId = "" ∨ flag = "" then (coll, .error 400 "userId and flag are required")
  else if f.FindOne then (coll, .error 500 "db error")
  else
    match FindOne coll userId with
    | none =>
      let user : User := ⟨userId, "", 0, []⟩
      match f.InsertOne with
      | .failed => (coll, .error 500 "failed to create user")
      | .failedApplied => (InsertOne coll user, .error 500 "failed to create user")
      | .ok => checkFlagBody (InsertOne coll user) f userId flag user
    | some user => checkFlagBody coll f userId flag user

/-- The `/resetUser` handler on the decoded body field `userId`. -/
def resetUserHandler (coll : Store) (f : Faults) (userId : String) :
    Store × Response Bool :=
  if userId = "" then (coll, .error 400 "userId is required")
  else
    match f.FindOneAndUpdate with
    | .failed => (coll, .error 500 "db error")
    | .failedApplied => ((FindOneAndUpdate coll userId [] 0).1, .error 500 "db error")
    | .ok =>
      match FindOneAndUpdate coll userId [] 0 with
      | (_, none) => (coll, .error 404 "user not found")
      | (coll1, some _) => (coll1, .json true)

/-- The `/deleteUser` handler on the decoded body field `userId`; the body is
`{"deleted": DeletedCount > 0}`. -/
def deleteUserHandler (coll : Store) (f : Faults) (userId : String) :
    Store × Response Bool :=
  if userId = "" then (coll, .error 400 "userId is required")
  else
    match f.DeleteOne with
    | .failed => (coll, .error 500 "db error")
    | .failedApplied => ((DeleteOne coll userId).1, .error 500 "db error")
    | .ok => ((DeleteOne coll userId).1, .json (decide ((DeleteOne coll userId).2 > 0)))

/-! ## Request sequences -/

/-- A request to one of the four handlers that touch a user document. -/
inductive Request where
  | getLevel (userId : String)
  | checkFlag (userId flag : String)
  | resetUser (userId : String)
  | deleteUser (userId : String)
deriving DecidableEq, Repr

/-- The collection after one request, served with the given driver faults. -/
def step (coll : Store) (fr : Faults × Request) : Store :=
  match fr.2 with
  | .getLevel userId => (getLevelHandler coll fr.1 userId).1
  | .checkFlag userId flag => (checkFlagHandler coll fr.1 userId flag).1
  | .resetUser userId => (resetUserHandler coll fr.1 userId).1
  | .deleteUser userId => (deleteUserHandler coll fr.1 userId).1

/-- The collection after a sequence of requests served one after the other,
starting from the empty collection. -/
def run (trace : List (Faults × Request)) : Store :=
  trace.foldl step []

/-! ## Concurrent flag submissions -/

/-- Where a running `/checkFlag` request stands between its driver calls. -/
inductive Phase where
  | start
  | insert
  | body (user : User)
  | done (resp : Response FlagResult)
deriving DecidableEq, Repr

/-- The next driver call of a `/checkFlag` request and the code up to the call
after it: from `start` the field check and `FindOne` (lines 111-121), from
`insert` the `InsertOne` of the fresh record (lines 122-128), from `body` the
catalog lookup, the already-solved test and `UpdateOne` (lines 134-168). -/
def threadStep (coll : Store) (f : Faults) (userId flag : String) :
    Phase → Store × Phase
  | .start =>
    if userId = "" ∨ flag = "" then
      (coll, .done (.error 400 "userId and flag are required"))
    else if f.FindOne then (coll, .done (.error 500 "db error"))
    else
      match FindOne coll userId with
      | none => (coll, .insert)
      | some user => (coll, .body user)
  | .insert =>
    let user : User := ⟨userId, "", 0, []⟩
    match f.InsertOne with
    | .failed => (coll, .done (.error 500 "failed to create user"))
    | .failedApplied => (InsertOne coll user, .done (.error 500 "failed to create user"))
    | .ok => (InsertOne coll user, .body user)
  | .body user =>
    ((checkFlagBody coll f userId flag user).1, .done (checkFlagBody coll f userId flag user).2)
  | .done resp => (coll, .done resp)

/-- One scheduling decision: request number `i` makes its next driver call
(with a working store); a number that names no request does nothing. -/
def schedStep (userId flag : String) (st : Store × List Phase) (i : Nat) :
    Store × List Phase :=
  match st.2[i]? with
  | none => st
  | some ph =>
    ((threadStep st.1 noFaults userId flag ph).1,
      st.2.set i (threadStep st.1 noFaults userId flag ph).2)

/-- The collection and the requests after `n` concurrent submissions of `flag`
for `userId` have made their driver calls in the order `sched`. -/
def runSchedule (coll : Store) (userId flag : String) (n : Nat) (sched : List Nat) :
    Store × List Phase :=
  sched.foldl (schedStep userId flag) (coll, List.replicate n Phase.start)

/-- The request has answered. -/
def Phase.isDone : Phase → Bool
  | .done _ => true
  | _ => false

/-- An upper bound on the steps a request still makes before it has answered. -/
def Phase.rank : Phase → Nat
  | .start => 3
  | .insert => 2
  | .body _ => 1
  | .done _ => 0

/-- The rank of request number `j` (0 when there is no such request). -/
def rankAt (l : List Phase) (j : Nat) : Nat :=
  match l[j]? with
  | some ph => ph.rank
  | none => 0

/-! ## Reference definitions from the specification -/

/-- The derived value CurrentLevel of the specification: 1 if the solved
levels are empty, otherwise the maximum of the solved levels plus 1. -/
def CurrentLevel (solvedLevels : List Int) : Int :=
  match solvedLevels.max? with
  | none => 1
  | some m => m + 1

/-- The points the catalog awards for a level number (0 for a number that is
no catalog level). -/
def pointsOfLevel (level : Int) : Int :=
  match challenges.find? (fun c => c.level == level) with
  | none => 0
  | some c => c.points

/-- The score invariant of a user record: no level is listed twice and the
score is the sum of the catalog points of the listed levels. -/
def ScoreInvariant (u : User) : Prop :=
  u.SolvedLevels.Nodup ∧ u.Score = (u.SolvedLevels.map pointsOfLevel).sum

/-- The record both handlers build for a user seen for the first time
(`User{Username: userId, Score: 0, SolvedLevels: []int{}}`). -/
def freshUser (userId : String) : User := ⟨userId, "", 0, []⟩

/-- The record a request works on: the stored record of the identifier, or
the fresh record when none is stored. -/
def recordOf (coll : Store) (userId : String) : User :=
  (FindOne coll userId).getD (freshUser userId)

/-- Every listed level is the level of a catalog challenge. -/
def LevelsInCatalog (u : User) : Prop :=
  ∀ v ∈ u.SolvedLevels, ∃ c ∈ challenges, c.level = v

/-- A property of user records that holds of the fresh record of a non-empty
identifier and survives crediting a catalog challenge not yet listed and
resetting. -/
structure Preserved (P : User → Prop) : Prop where
  fresh : ∀ userId, userId ≠ "" → P ⟨userId, "", 0, []⟩
  credit : ∀ (u : User) (c : Challenge), P u → c ∈ challenges → c.level ∉ u.SolvedLevels →
    P { u with SolvedLevels := u.SolvedLevels ++ [c.level],
               Score := wrap64 (u.Score + c.points) }
  reset : ∀ u : User, P u → P { u with SolvedLevels := [], Score := 0 }

/-- The record with a challenge credited: its level appended and its points
added to the score (in `int` arithmetic), as lines 159-160 do. -/
def creditedRecord (u : User) (c : Challenge) : User :=
  { u with SolvedLevels := u.SolvedLevels ++ [c.level],
           Score := wrap64 (u.Score + c.points) }

/-- The collection with `k` more fresh records of the identifier inserted. -/
def pending (coll : Store) (userId : String) (k : Nat) : Store :=
  coll ++ List.replicate k (freshUser userId)

/-- What holds of a running submission of the flag of `c` for `userId` while
`k` fresh records have been inserted and the challenge has (`cr = true`) or has
not yet been credited: the record it holds is the one the requests started
from, or the credited one once the credit is stored; it inserts only when no
record was stored at the start; and it has answered only after the credit was
stored, with `correct: true` and the level of the credited record. -/
def PhaseOK (coll : Store) (userId : String) (c : Challenge) (k : Nat) (cr : Bool) :
    Phase → Prop
  | .start => True
  | .insert => FindOne coll userId = none
  | .body u =>
    FindOne (pending coll userId k) userId = some (recordOf coll userId) ∧
      (u = recordOf coll userId ∨
        (u = creditedRecord (recordOf coll userId) c ∧ cr = true))
  | .done r =>
    r = .json ⟨true, getCurrentLevelForUser (some (creditedRecord (recordOf coll userId) c))⟩ ∧
      cr = true

/-- The invariant of concurrent submissions of the flag of `c` for `userId`
started on `coll`: the collection is `coll` with some fresh records of the
identifier appended (none when a record was stored at the start), with the
credit stored in the first record of the identifier or not yet stored, and
every request is in a phase that fits. -/
def RaceInv (coll : Store) (userId : String) (c : Challenge) (st : Store × List Phase) :
    Prop :=
  ∃ (k : Nat) (cr : Bool),
    (FindOne coll userId ≠ none → k = 0) ∧
    st.1 = (if cr = true then
        UpdateOne (pending coll userId k) userId
          (creditedRecord (recordOf coll userId) c).SolvedLevels
          (creditedRecord (recordOf coll userId) c).Score
      else pending coll userId k) ∧
    (cr = true → FindOne (pending coll userId k) userId = some (recordOf coll userId)) ∧
    ∀ ph ∈ st.2, PhaseOK coll userId c k cr ph

/-! ## The maximum loop of `getCurrentLevelForUser` -/

/-- The loop of `getCurrentLevelForUser` never ends below its start value. -/
theorem le_maxLoop (l : List Int) (acc : Int) :
    acc ≤ l.foldl (fun max v => if v > max then v else max) acc := by
  induction l generalizing acc with
  | nil => simp
  | cons v vs ih =>
    simp only [List.foldl_cons]
    split
    · exact le_trans (by omega) (ih v)
    · exact ih acc

/-- The loop of `getCurrentLevelForUser` ends at or above every element. -/
theorem mem_le_maxLoop (l : List Int) (acc : Int) :
    ∀ v ∈ l, v ≤ l.foldl (fun max v => if v > max then v else max) acc := by
  induction l generalizing acc with
  | nil => simp
  | cons w ws ih =>
    intro v hv
    simp only [List.foldl_cons]
    rcases List.mem_cons.mp hv with rfl | hv
    · split
      · exact le_maxLoop ws v
      · exact le_trans (by omega) (le_maxLoop ws acc)
    · exact ih _ v hv

/-- The loop of `getCurrentLevelForUser` ends at its start value or at an
element of the list. -/
theorem maxLoop_eq_or_mem (l : List Int) (acc : Int) :
    l.foldl (fun max v => if v > max then v else max) acc = acc ∨
      l.foldl (fun max v => if v > max then v else max) acc ∈ l := by
  induction l generalizing acc with
  | nil => simp
  | cons w ws ih =>
    simp only [List.foldl_cons]
    split
    · rcases ih w with h | h
      · right; rw [h]; exact List.mem_cons_self _ _
      · right; exact List.mem_cons_of_mem _ h
    · rcases ih acc with h | h
      · left; exact h
      · right; exact List.mem_cons_of_mem _ h

/-- On a non-empty list of positive numbers the loop started at 0 ends at an
element of the list. -/
theorem maxLoop_mem_of_pos (l : List Int) (hne : l ≠ []) (hpos : ∀ v ∈ l, 0 < v) :
    l.foldl (fun max v => if v > max then v else max) 0 ∈ l := by
  rcases maxLoop_eq_or_mem l 0 with h | h
  · exfalso
    obtain ⟨v, hv⟩ := List.exists_mem_of_ne_nil l hne
    have h1 := mem_le_maxLoop l 0 v hv
    have h2 := hpos v hv
    omega
  · exact h

/-- A list element that bounds the list is what `max?` returns. -/
theorem max?_eq_of_mem_of_bound (l : List Int) (m : Int) (hm : m ∈ l)
    (hb : ∀ v ∈ l, v ≤ m) : l.max? = some m := by
  cases h : l.max? with
  | none =>
    rw [List.max?_eq_none_iff] at h
    subst h
    simp at hm
  | some a =>
    have ha : a ∈ l := List.max?_mem (fun x y => max_choice x y) h
    have hle : ∀ b ∈ l, b ≤ a :=
      (List.max?_le_iff (fun _ _ _ => max_le_iff) h).1 (le_refl a)
    have h1 := hb a ha
    have h2 := hle m hm
    exact congrArg some (le_antisymm h1 h2)

/-! ## The catalog -/

/-- Flags are unique: the lookup by a catalog flag finds that challenge. -/
theorem find_flag_of_mem :
    ∀ c ∈ challenges, challenges.find? (fun x => x.flag == c.flag) = some c := by
  decide

/-- Levels are unique: the points of a catalog level are that challenge's. -/
theorem pointsOfLevel_of_mem : ∀ c ∈ challenges, pointsOfLevel c.level = c.points := by
  decide

/-- Catalog levels lie between 1 and 10. -/
theorem level_bounds_of_mem : ∀ c ∈ challenges, 1 ≤ c.level ∧ c.level ≤ 10 := by
  decide

/-- What the lookup by flag returns is a catalog challenge with that flag. -/
theorem find_flag_some {flag : String} {c : Challenge}
    (h : challenges.find? (fun x => x.flag == flag) = some c) :
    c ∈ challenges ∧ c.flag = flag := by
  refine ⟨List.mem_of_find?_eq_some h, ?_⟩
  have := List.find?_some h
  simpa using this

/-- The lookup by flag finds nothing exactly when no catalog flag equals the
submitted string. -/
theorem find_flag_none {flag : String} (h : ∀ c ∈ challenges, c.flag ≠ flag) :
    challenges.find? (fun x => x.flag == flag) = none := by
  rw [List.find?_eq_none]
  intro c hc
  simpa using h c hc

/-! ## The driver operations -/

/-- The document that `FindOne` returns carries the username asked for. -/
theorem FindOne_username {coll : Store} {id : String} {u : User}
    (h : FindOne coll id = some u) : u.Username = id := by
  have := List.find?_some h
  simpa using this

/-- The document that `FindOne` returns is in the collection. -/
theorem FindOne_mem {coll : Store} {id : String} {u : User}
    (h : FindOne coll id = some u) : u ∈ coll :=
  List.mem_of_find?_eq_some h

/-- `FindOne` stops at a head document of the username asked for. -/
theorem FindOne_cons_pos {w : User} {id : String} (rest : Store) (h : w.Username = id) :
    FindOne (w :: rest) id = some w := by
  simp [FindOne, List.find?_cons, h]

/-- `FindOne` passes a head document of another username. -/
theorem FindOne_cons_neg {w : User} {id : String} (rest : Store) (h : ¬ w.Username = id) :
    FindOne (w :: rest) id = FindOne rest id := by
  simp [FindOne, List.find?_cons, h]

/-- `UpdateOne` sets the fields of a head document of the username asked for. -/
theorem UpdateOne_cons_pos {w : User} {id : String} (rest : Store) (sl : List Int) (sc : Int)
    (h : w.Username = id) :
    UpdateOne (w :: rest) id sl sc = { w with SolvedLevels := sl, Score := sc } :: rest := by
  simp only [UpdateOne, beq_iff_eq]
  rw [if_pos h]

/-- `UpdateOne` passes a head document of another username. -/
theorem UpdateOne_cons_neg {w : User} {id : String} (rest : Store) (sl : List Int) (sc : Int)
    (h : ¬ w.Username = id) :
    UpdateOne (w :: rest) id sl sc = w :: UpdateOne rest id sl sc := by
  simp only [UpdateOne, beq_iff_eq]
  rw [if_neg h]

/-- After `UpdateOne` the first document of that username is the old one with
both fields set. -/
theorem FindOne_UpdateOne_same (coll : Store) (id : String) (sl : List Int) (sc : Int) :
    FindOne (UpdateOne coll id sl sc) id =
      (FindOne coll id).map (fun u => { u with SolvedLevels := sl, Score := sc }) := by
  induction coll with
  | nil => rfl
  | cons u rest ih =>
    by_cases h : u.Username = id
    · rw [UpdateOne_cons_pos rest sl sc h, FindOne_cons_pos rest h,
        FindOne_cons_pos rest (show ({ u with SolvedLevels := sl, Score := sc } : User).Username = id from h)]
      rfl
    · rw [UpdateOne_cons_neg rest sl sc h, FindOne_cons_neg rest h, FindOne_cons_neg _ h]
      exact ih

/-- A lookup under another username does not see `UpdateOne`. -/
theorem FindOne_UpdateOne_other (coll : Store) (id other : String) (sl : List Int)
    (sc : Int) (hne : other ≠ id) :
    FindOne (UpdateOne coll id sl sc) other = FindOne coll other := by
  induction coll with
  | nil => rfl
  | cons u rest ih =>
    by_cases h : u.Username = id
    · have h2 : ¬ u.Username = other := fun e => hne (e.symm.trans h)
      rw [UpdateOne_cons_pos rest sl sc h, FindOne_cons_neg rest h2,
        FindOne_cons_neg rest (show ¬ ({ u with SolvedLevels := sl, Score := sc } : User).Username = other from h2)]
    · rw [UpdateOne_cons_neg rest sl sc h]
      by_cases h2 : u.Username = other
      · rw [FindOne_cons_pos _ h2, FindOne_cons_pos _ h2]
      · rw [FindOne_cons_neg _ h2, FindOne_cons_neg _ h2]
        exact ih

/-- A document of the collection after `UpdateOne` is an old document or the
found document with both fields set. -/
theorem mem_UpdateOne {coll : Store} {id : String} {sl : List Int} {sc : Int} {u : User}
    (h : u ∈ UpdateOne coll id sl sc) :
    u ∈ coll ∨ ∃ v, FindOne coll id = some v ∧ u = { v with SolvedLevels := sl, Score := sc } := by
  induction coll with
  | nil => simp [UpdateOne] at h
  | cons w rest ih =>
    by_cases hw : w.Username = id
    · rw [UpdateOne_cons_pos rest sl sc hw, List.mem_cons] at h
      rcases h with h | h
      · right; exact ⟨w, FindOne_cons_pos rest hw, h⟩
      · left; exact List.mem_cons_of_mem _ h
    · rw [UpdateOne_cons_neg rest sl sc hw, List.mem_cons] at h
      rcases h with h | h
      · left; rw [h]; exact List.mem_cons_self _ _
      · rcases ih h with h1 | ⟨v, hv, e⟩
        · left; exact List.mem_cons_of_mem _ h1
        · right; exact ⟨v, by rw [FindOne_cons_neg rest hw]; exact hv, e⟩

/-- After `InsertOne` of a document for an absent username, `FindOne` returns it. -/
theorem FindOne_InsertOne_of_none {coll : Store} {u : User}
    (h : FindOne coll u.Username = none) : FindOne (InsertOne coll u) u.Username = some u := by
  unfold FindOne at h
  simp [FindOne, InsertOne, List.find?_append, h]

/-- A lookup under another username does not see `InsertOne`. -/
theorem FindOne_InsertOne_other (coll : Store) (u : User) (other : String)
    (hne : other ≠ u.Username) : FindOne (InsertOne coll u) other = FindOne coll other := by
  have h2 : ¬ u.Username = other := fun e => hne e.symm
  simp only [FindOne, InsertOne, List.find?_append]
  cases List.find? (fun u => u.Username == other) coll <;> simp [h2]

/-- A document left by `DeleteOne` was in the collection. -/
theorem mem_DeleteOne {coll : Store} {id : String} {u : User}
    (h : u ∈ (DeleteOne coll id).1) : u ∈ coll := by
  induction coll with
  | nil => simp [DeleteOne] at h
  | cons w rest ih =>
    by_cases hw : w.Username = id
    · simp only [DeleteOne, beq_iff_eq, hw, if_true] at h
      exact List.mem_cons_of_mem _ h
    · simp only [DeleteOne, beq_iff_eq, hw, if_false, List.mem_cons] at h
      rcases h with h | h
      · rw [h]; exact List.mem_cons_self _ _
      · exact List.mem_cons_of_mem _ (ih h)

/-! ## 64-bit arithmetic -/

/-- A sum within the range of `int` is not changed by wrapping. -/
theorem wrap64_of_IsInt64 {x : Int} (h : IsInt64 x) : wrap64 x = x := by
  unfold IsInt64 at h
  unfold wrap64
  omega

/-! ## The flag handler, case by case -/

/-- No catalog flag is the empty string. -/
theorem flag_ne_empty_of_mem : ∀ c ∈ challenges, c.flag ≠ "" := by
  decide

/-- With both fields present and a successful `FindOne`, the handler runs its
body on the stored record. -/
theorem checkFlagHandler_of_some {coll : Store} (f : Faults) {userId flag : String}
    {u : User} (hid : userId ≠ "") (hflag : flag ≠ "") (hf : f.FindOne = false)
    (hu : FindOne coll userId = some u) :
    checkFlagHandler coll f userId flag = checkFlagBody coll f userId flag u := by
  simp [checkFlagHandler, hid, hflag, hf, hu]

/-- With both fields present, no stored record and successful `FindOne` and
`InsertOne`, the handler inserts the fresh record and runs its body on it. -/
theorem checkFlagHandler_of_none {coll : Store} (f : Faults) {userId flag : String}
    (hid : userId ≠ "") (hflag : flag ≠ "") (hf : f.FindOne = false)
    (hi : f.InsertOne = .ok) (hu : FindOne coll userId = none) :
    checkFlagHandler coll f userId flag =
      checkFlagBody (InsertOne coll (freshUser userId)) f userId flag (freshUser userId) := by
  simp [checkFlagHandler, hid, hflag, hf, hi, hu, freshUser]

/-- With both fields present, no stored record and a failing `InsertOne`, the
handler answers 500; the fresh record is in the collection exactly when the
failed insert was applied. -/
theorem checkFlagHandler_of_none_fail {coll : Store} (f : Faults) {userId flag : String}
    (hid : userId ≠ "") (hflag : flag ≠ "") (hf : f.FindOne = false)
    (hi : f.InsertOne ≠ .ok) (hu : FindOne coll userId = none) :
    checkFlagHandler coll f userId flag =
      (if f.InsertOne = .failedApplied then InsertOne coll (freshUser userId) else coll,
        .error 500 "failed to create user") := by
  cases h : f.InsertOne with
  | ok => exact absurd h hi
  | failed => simp [checkFlagHandler, hid, hflag, hf, h, hu]
  | failedApplied => simp [checkFlagHandler, hid, hflag, hf, h, hu, freshUser]

/-- The body on a flag that is in no catalog entry. -/
theorem checkFlagBody_of_no_match (coll : Store) (f : Faults) (userId : String)
    {flag : String} (u : User) (h : ∀ c ∈ challenges, c.flag ≠ flag) :
    checkFlagBody coll f userId flag u =
      (coll, .json ⟨false, getCurrentLevelForUser (some u)⟩) := by
  simp [checkFlagBody, find_flag_none h]

/-- The body on a catalog flag whose level the record already lists. -/
theorem checkFlagBody_of_solved (coll : Store) (f : Faults) (userId : String)
    {c : Challenge} (u : User) (hc : c ∈ challenges) (hs : c.level ∈ u.SolvedLevels) :
    checkFlagBody coll f userId c.flag u =
      (coll, .json ⟨true, getCurrentLevelForUser (some u)⟩) := by
  simp [checkFlagBody, find_flag_of_mem c hc, hs]

/-- The body on a catalog flag whose level the record does not list yet, with a
successful `UpdateOne`. -/
theorem checkFlagBody_of_new (coll : Store) (f : Faults) (userId : String)
    {c : Challenge} (u : User) (hc : c ∈ challenges) (hs : c.level ∉ u.SolvedLevels)
    (hf : f.UpdateOne = .ok) :
    checkFlagBody coll f userId c.flag u =
      (UpdateOne coll userId (u.SolvedLevels ++ [c.level]) (wrap64 (u.Score + c.points)),
        .json ⟨true, getCurrentLevelForUser
          (some { u with SolvedLevels := u.SolvedLevels ++ [c.level],
                         Score := wrap64 (u.Score + c.points) })⟩) := by
  simp [checkFlagBody, find_flag_of_mem c hc, hs, hf]

/-- The body on a catalog flag whose level the record does not list yet, with an
`UpdateOne` that fails without being applied. -/
theorem checkFlagBody_of_new_failed (coll : Store) (f : Faults) (userId : String)
    {c : Challenge} (u : User) (hc : c ∈ challenges) (hs : c.level ∉ u.SolvedLevels)
    (hf : f.UpdateOne = .failed) :
    checkFlagBody coll f userId c.flag u = (coll, .error 500 "failed to update user") := by
  simp [checkFlagBody, find_flag_of_mem c hc, hs, hf]

/-- The body on a catalog flag whose level the record does not list yet, with an
`UpdateOne` that fails after the server applied it. -/
theorem checkFlagBody_of_new_failedApplied (coll : Store) (f : Faults) (userId : String)
    {c : Challenge} (u : User) (hc : c ∈ challenges) (hs : c.level ∉ u.SolvedLevels)
    (hf : f.UpdateOne = .failedApplied) :
    checkFlagBody coll f userId c.flag u =
      (UpdateOne coll userId (u.SolvedLevels ++ [c.level]) (wrap64 (u.Score + c.points)),
        .error 500 "failed to update user") := by
  simp [checkFlagBody, find_flag_of_mem c hc, hs, hf]

/-- The body of the flag handler leaves the collection as it was, or its
`UpdateOne` was applied and set both fields from a catalog challenge with the
submitted flag whose level the record did not list. -/
theorem checkFlagBody_store (coll : Store) (f : Faults) (userId flag : String) (u : User) :
    (checkFlagBody coll f userId flag u).1 = coll ∨
    ∃ c ∈ challenges, c.flag = flag ∧ c.level ∉ u.SolvedLevels ∧ f.UpdateOne ≠ .failed ∧
      (checkFlagBody coll f userId flag u).1 =
        UpdateOne coll userId (u.SolvedLevels ++ [c.level]) (wrap64 (u.Score + c.points)) := by
  cases hfound : challenges.find? (fun x => x.flag == flag) with
  | none => left; simp [checkFlagBody, hfound]
  | some c =>
    obtain ⟨hc, hcf⟩ := find_flag_some hfound
    by_cases hs : c.level ∈ u.SolvedLevels
    · left; simp [checkFlagBody, hfound, hs]
    · cases hf : f.UpdateOne with
      | failed => left; simp [checkFlagBody, hfound, hs, hf]
      | ok =>
        right
        exact ⟨c, hc, hcf, hs, by simp, by simp [checkFlagBody, hfound, hs, hf]⟩
      | failedApplied =>
        right
        exact ⟨c, hc, hcf, hs, by simp, by simp [checkFlagBody, hfound, hs, hf]⟩

/-! ## Current level (claim C1) -/

/-- Claim C1 as stated fails at the largest `int`: the record whose only solved
level is 9223372036854775807 has positive levels, the reference CurrentLevel is
9223372036854775808, and `getCurrentLevelForUser` returns
-9223372036854775808. -/
theorem getCurrentLevelForUser_wraps :
    (∀ v ∈ (⟨"bob", "", 0, [9223372036854775807]⟩ : User).SolvedLevels, 0 < v) ∧
    CurrentLevel [9223372036854775807] = 9223372036854775808 ∧
    getCurrentLevelForUser (some ⟨"bob", "", 0, [9223372036854775807]⟩) =
      -9223372036854775808 ∧
    getCurrentLevelForUser (some ⟨"bob", "", 0, [9223372036854775807]⟩) ≠
      CurrentLevel (⟨"bob", "", 0, [9223372036854775807]⟩ : User).SolvedLevels := by
  decide

/-- Claim C1, amended: `getCurrentLevelForUser` equals the reference definition
of CurrentLevel on every user record whose solved levels are positive and below
the largest `int`, 9223372036854775807: it returns 1 when `SolvedLevels` is
empty, and on a non-empty list it returns the greatest listed level plus 1,
whatever the order, the gaps and the number of entries. -/
theorem getCurrentLevelForUser_eq_CurrentLevel (u : User)
    (hpos : ∀ v ∈ u.SolvedLevels, 0 < v ∧ v < 9223372036854775807) :
    getCurrentLevelForUser (some u) = CurrentLevel u.SolvedLevels ∧
    (u.SolvedLevels = [] → getCurrentLevelForUser (some u) = 1) ∧
    (u.SolvedLevels ≠ [] →
      ∃ m ∈ u.SolvedLevels, (∀ v ∈ u.SolvedLevels, v ≤ m) ∧
        getCurrentLevelForUser (some u) = m + 1) := by
  have hempty : u.SolvedLevels = [] → getCurrentLevelForUser (some u) = 1 := by
    intro h
    simp [getCurrentLevelForUser, h]
  have hmax : u.SolvedLevels ≠ [] →
      ∃ m ∈ u.SolvedLevels, (∀ v ∈ u.SolvedLevels, v ≤ m) ∧
        getCurrentLevelForUser (some u) = m + 1 := by
    intro hne
    have hmem := maxLoop_mem_of_pos u.SolvedLevels hne (fun v hv => (hpos v hv).1)
    refine ⟨_, hmem, mem_le_maxLoop u.SolvedLevels 0, ?_⟩
    have hlen : ¬ u.SolvedLevels.length = 0 := fun h => hne (List.length_eq_zero.mp h)
    have hb := hpos _ hmem
    simp only [getCurrentLevelForUser, hlen, if_false]
    exact wrap64_of_IsInt64 ⟨by omega, by omega⟩
  refine ⟨?_, hempty, hmax⟩
  by_cases hne : u.SolvedLevels = []
  · rw [hempty hne, hne]
    rfl
  · obtain ⟨m, hm, hb, e⟩ := hmax hne
    rw [e, CurrentLevel, max?_eq_of_mem_of_bound _ m hm hb]

/-- Claim C1, amended, at the record of a user who solved levels 1, 3 and 5: the
current level is 6, not 4. -/
theorem getCurrentLevelForUser_eq_CurrentLevel_witness :
    (∀ v ∈ (⟨"bob", "", 600, [1, 3, 5]⟩ : User).SolvedLevels,
      0 < v ∧ v < 9223372036854775807) ∧
    getCurrentLevelForUser (some ⟨"bob", "", 600, [1, 3, 5]⟩) = 6 ∧
    getCurrentLevelForUser (some ⟨"bob", "", 600, [1, 3, 5]⟩) = CurrentLevel [1, 3, 5] :=
  ⟨by decide, by decide,
    (getCurrentLevelForUser_eq_CurrentLevel ⟨"bob", "", 600, [1, 3, 5]⟩ (by decide)).1⟩

/-! ## Flag submission (claims C2, C4, C5) -/

/-- The record a request works on is the stored one when there is one. -/
theorem recordOf_of_some {coll : Store} {userId : String} {u : User}
    (h : FindOne coll userId = some u) : recordOf coll userId = u := by
  simp [recordOf, h]

/-- The record a request works on is the fresh one when none is stored. -/
theorem recordOf_of_none {coll : Store} {userId : String}
    (h : FindOne coll userId = none) : recordOf coll userId = freshUser userId := by
  simp [recordOf, h]

/-- Claim C2 as stated fails at a stored score of 9223372036854775807: the user
solved only level 1 and submits the flag of level 7 with a working store; the
stored score afterwards is -9223372036854775409, not the old score plus 400. -/
theorem checkFlag_first_solve_wraps :
    "bob" ≠ "" ∧ (⟨7, "flag{pwn_it}", 400⟩ : Challenge) ∈ challenges ∧
    (7 : Int) ∉ (recordOf [⟨"bob", "", 9223372036854775807, [1]⟩] "bob").SolvedLevels ∧
    FindOne (checkFlagHandler [⟨"bob", "", 9223372036854775807, [1]⟩] noFaults "bob"
        "flag{pwn_it}").1 "bob" = some ⟨"bob", "", -9223372036854775409, [1, 7]⟩ ∧
    (-9223372036854775409 : Int) ≠
      (recordOf [⟨"bob", "", 9223372036854775807, [1]⟩] "bob").Score + 400 := by
  decide

/-- Claim C2, amended: with a working store, a non-empty identifier and a
catalog challenge `c` whose level the user's record does not list (the user may
have solved any other levels, or not exist yet), and with the old score plus
`c.points` within the range of `int`, submitting the flag of `c` leaves a
stored record whose solved levels are the old list followed by `c.level`
(listed exactly once), whose score is the old score plus `c.points`, and
answers `correct: true` with `newLevel` the current level of that record; the
records found under other identifiers are untouched. -/
theorem checkFlag_first_solve (coll : Store) (userId : String) (c : Challenge)
    (hid : userId ≠ "") (hc : c ∈ challenges)
    (hnew : c.level ∉ (recordOf coll userId).SolvedLevels)
    (hrange : IsInt64 ((recordOf coll userId).Score + c.points)) :
    ∃ new : User,
      FindOne (checkFlagHandler coll noFaults userId c.flag).1 userId = some new ∧
      new.Username = userId ∧
      new.SolvedLevels = (recordOf coll userId).SolvedLevels ++ [c.level] ∧
      new.SolvedLevels.count c.level = 1 ∧
      new.Score = (recordOf coll userId).Score + c.points ∧
      (checkFlagHandler coll noFaults userId c.flag).2 =
        .json ⟨true, getCurrentLevelForUser (some new)⟩ ∧
      ∀ other, other ≠ userId →
        FindOne (checkFlagHandler coll noFaults userId c.flag).1 other = FindOne coll other := by
  have hflag := flag_ne_empty_of_mem c hc
  have hcount : ((recordOf coll userId).SolvedLevels ++ [c.level]).count c.level = 1 := by
    rw [List.count_append, List.count_eq_zero_of_not_mem hnew]
    simp
  cases hu : FindOne coll userId with
  | some u =>
    have hrec := recordOf_of_some hu
    rw [hrec] at hnew hcount hrange
    rw [hrec, checkFlagHandler_of_some noFaults hid hflag rfl hu,
      checkFlagBody_of_new coll noFaults userId u hc hnew rfl]
    refine ⟨{ u with SolvedLevels := u.SolvedLevels ++ [c.level],
                     Score := wrap64 (u.Score + c.points) }, ?_,
      (FindOne_username hu : u.Username = userId), rfl, hcount,
      wrap64_of_IsInt64 hrange, rfl, ?_⟩
    · show FindOne (UpdateOne coll userId _ _) userId = _
      rw [FindOne_UpdateOne_same, hu]
      rfl
    · intro other hne
      exact FindOne_UpdateOne_other coll userId other _ _ hne
  | none =>
    have hrec := recordOf_of_none hu
    rw [hrec] at hnew hcount hrange
    rw [hrec, checkFlagHandler_of_none noFaults hid hflag rfl rfl hu,
      checkFlagBody_of_new _ noFaults userId (freshUser userId) hc hnew rfl]
    have hu1 : FindOne coll (freshUser userId).Username = none := hu
    refine ⟨{ freshUser userId with
                SolvedLevels := (freshUser userId).SolvedLevels ++ [c.level],
                Score := wrap64 ((freshUser userId).Score + c.points) }, ?_, rfl, rfl, hcount,
      wrap64_of_IsInt64 hrange, rfl, ?_⟩
    · show FindOne (UpdateOne (InsertOne coll (freshUser userId)) userId _ _) userId = _
      rw [FindOne_UpdateOne_same]
      have := FindOne_InsertOne_of_none hu1
      rw [show (freshUser userId).Username = userId from rfl] at this
      rw [this]
      rfl
    · intro other hne
      show FindOne (UpdateOne (InsertOne coll (freshUser userId)) userId _ _) other = _
      rw [FindOne_UpdateOne_other _ userId other _ _ hne]
      exact FindOne_InsertOne_other coll (freshUser userId) other hne

/-- Claim C2, amended, out of level order: a user who solved only level 1
submits the flag of level 7. -/
theorem checkFlag_first_solve_witness :
    "bob" ≠ "" ∧ (⟨7, "flag{pwn_it}", 400⟩ : Challenge) ∈ challenges ∧
    (7 : Int) ∉ (recordOf [⟨"bob", "", 100, [1]⟩] "bob").SolvedLevels ∧
    IsInt64 ((recordOf [⟨"bob", "", 100, [1]⟩] "bob").Score +
      (⟨7, "flag{pwn_it}", 400⟩ : Challenge).points) ∧
    (∃ new : User,
      FindOne (checkFlagHandler [⟨"bob", "", 100, [1]⟩] noFaults "bob"
        (⟨7, "flag{pwn_it}", 400⟩ : Challenge).flag).1 "bob" = some new ∧
      new.Username = "bob" ∧
      new.SolvedLevels = (recordOf [⟨"bob", "", 100, [1]⟩] "bob").SolvedLevels ++
        [(⟨7, "flag{pwn_it}", 400⟩ : Challenge).level] ∧
      new.SolvedLevels.count (⟨7, "flag{pwn_it}", 400⟩ : Challenge).level = 1 ∧
      new.Score = (recordOf [⟨"bob", "", 100, [1]⟩] "bob").Score +
        (⟨7, "flag{pwn_it}", 400⟩ : Challenge).points ∧
      (checkFlagHandler [⟨"bob", "", 100, [1]⟩] noFaults "bob"
        (⟨7, "flag{pwn_it}", 400⟩ : Challenge).flag).2 =
        .json ⟨true, getCurrentLevelForUser (some new)⟩ ∧
      ∀ other, other ≠ "bob" →
        FindOne (checkFlagHandler [⟨"bob", "", 100, [1]⟩] noFaults "bob"
          (⟨7, "flag{pwn_it}", 400⟩ : Challenge).flag).1 other =
          FindOne [⟨"bob", "", 100, [1]⟩] other) ∧
    checkFlagHandler [⟨"bob", "", 100, [1]⟩] noFaults "bob" "flag{pwn_it}" =
      ([⟨"bob", "", 500, [1, 7]⟩], .json ⟨true, 8⟩) :=
  ⟨by decide, by decide, by decide, by decide,
    checkFlag_first_solve [⟨"bob", "", 100, [1]⟩] "bob" ⟨7, "flag{pwn_it}", 400⟩
      (by decide) (by decide) (by decide) (by decide),
    by decide⟩

/-- Claim C4: re-submitting the flag of a catalog challenge whose level the
stored record already lists leaves the collection unchanged whichever driver
calls fail, and with a working store answers `correct: true` with `newLevel`
the current level of the record; and submitting a correct flag a second time
right after the first (on any collection, with a working store) leaves the
collection and the answer of the first submission. -/
theorem checkFlag_resubmit (coll : Store) (userId : String) (c : Challenge) (u : User)
    (hid : userId ≠ "") (hc : c ∈ challenges) (hu : FindOne coll userId = some u)
    (hsolved : c.level ∈ u.SolvedLevels) :
    (∀ f, (checkFlagHandler coll f userId c.flag).1 = coll) ∧
    checkFlagHandler coll noFaults userId c.flag =
      (coll, .json ⟨true, getCurrentLevelForUser (some u)⟩) ∧
    ∀ coll0 : Store,
      checkFlagHandler (checkFlagHandler coll0 noFaults userId c.flag).1 noFaults userId c.flag =
        checkFlagHandler coll0 noFaults userId c.flag := by
  have hflag := flag_ne_empty_of_mem c hc
  have honce : ∀ (s : Store) (v : User), FindOne s userId = some v →
      c.level ∈ v.SolvedLevels →
      checkFlagHandler s noFaults userId c.flag =
        (s, .json ⟨true, getCurrentLevelForUser (some v)⟩) := by
    intro s v hv hs
    rw [checkFlagHandler_of_some noFaults hid hflag rfl hv,
      checkFlagBody_of_solved s noFaults userId v hc hs]
  refine ⟨?_, honce coll u hu hsolved, ?_⟩
  · intro f
    by_cases hf : f.FindOne = true
    · simp [checkFlagHandler, hid, hflag, hf]
    · rw [checkFlagHandler_of_some f hid hflag (by simpa using hf) hu,
        checkFlagBody_of_solved coll f userId u hc hsolved]
  · intro coll0
    cases hv : FindOne coll0 userId with
    | some v =>
      by_cases hs : c.level ∈ v.SolvedLevels
      · rw [honce coll0 v hv hs]
        exact honce coll0 v hv hs
      · rw [checkFlagHandler_of_some noFaults hid hflag rfl hv,
          checkFlagBody_of_new coll0 noFaults userId v hc hs rfl]
        refine honce _ _ ?_ ?_
        · show FindOne (UpdateOne coll0 userId _ _) userId = _
          rw [FindOne_UpdateOne_same, hv]
          rfl
        · exact List.mem_append_right _ (List.mem_singleton_self _)
    | none =>
      have hs : c.level ∉ (freshUser userId).SolvedLevels := by simp [freshUser]
      have hv1 : FindOne coll0 (freshUser userId).Username = none := hv
      rw [checkFlagHandler_of_none noFaults hid hflag rfl rfl hv,
        checkFlagBody_of_new _ noFaults userId (freshUser userId) hc hs rfl]
      refine honce _ _ ?_ ?_
      · show FindOne (UpdateOne (InsertOne coll0 (freshUser userId)) userId _ _) userId = _
        have := FindOne_InsertOne_of_none hv1
        rw [show (freshUser userId).Username = userId from rfl] at this
        rw [FindOne_UpdateOne_same, this]
        rfl
      · exact List.mem_append_right _ (List.mem_singleton_self _)

/-- Claim C4 at a user who already solved level 1 and submits its flag again. -/
theorem checkFlag_resubmit_witness :
    "bob" ≠ "" ∧ (⟨1, "flag{welcome_to_the_game}", 100⟩ : Challenge) ∈ challenges ∧
    FindOne [⟨"bob", "", 100, [1]⟩] "bob" = some ⟨"bob", "", 100, [1]⟩ ∧
    checkFlagHandler [⟨"bob", "", 100, [1]⟩] noFaults "bob"
        (⟨1, "flag{welcome_to_the_game}", 100⟩ : Challenge).flag =
      ([⟨"bob", "", 100, [1]⟩],
        .json ⟨true, getCurrentLevelForUser (some ⟨"bob", "", 100, [1]⟩)⟩) :=
  ⟨by decide, by decide, by decide,
    (checkFlag_resubmit [⟨"bob", "", 100, [1]⟩] "bob" ⟨1, "flag{welcome_to_the_game}", 100⟩
      ⟨"bob", "", 100, [1]⟩ (by decide) (by decide) (by decide) (by decide)).2.1⟩

/-- Claim C5: with a working store, a non-empty identifier and a non-empty
submitted string that equals the flag of no catalog challenge, the handler
answers `correct: false` with `newLevel` the current level of the user's
record, which is no error; the stored record of an existing user and the whole
collection are unchanged, a user seen for the first time gets the fresh record
and nothing else, and whichever driver calls fail the collection is the one a
level query leaves. -/
theorem checkFlag_incorrect (coll : Store) (userId flag : String)
    (hid : userId ≠ "") (hflag : flag ≠ "") (hno : ∀ c ∈ challenges, c.flag ≠ flag) :
    (checkFlagHandler coll noFaults userId flag).2 =
      .json ⟨false, getCurrentLevelForUser (some (recordOf coll userId))⟩ ∧
    FindOne (checkFlagHandler coll noFaults userId flag).1 userId =
      some (recordOf coll userId) ∧
    (∀ u, FindOne coll userId = some u →
      (checkFlagHandler coll noFaults userId flag).1 = coll) ∧
    (FindOne coll userId = none →
      (checkFlagHandler coll noFaults userId flag).1 = coll ++ [freshUser userId]) ∧
    ∀ f, (checkFlagHandler coll f userId flag).1 = (getLevelHandler coll f userId).1 := by
  have hsome : ∀ f u, f.FindOne = false → FindOne coll userId = some u →
      checkFlagHandler coll f userId flag =
        (coll, .json ⟨false, getCurrentLevelForUser (some u)⟩) := by
    intro f u hf hu
    rw [checkFlagHandler_of_some f hid hflag hf hu, checkFlagBody_of_no_match coll f userId u hno]
  have hnone : ∀ f, f.FindOne = false → f.InsertOne = .ok → FindOne coll userId = none →
      checkFlagHandler coll f userId flag =
        (coll ++ [freshUser userId],
          .json ⟨false, getCurrentLevelForUser (some (freshUser userId))⟩) := by
    intro f hf hi hu
    rw [checkFlagHandler_of_none f hid hflag hf hi hu,
      checkFlagBody_of_no_match _ f userId (freshUser userId) hno]
    rfl
  refine ⟨?_, ?_, ?_, ?_, ?_⟩
  · cases hu : FindOne coll userId with
    | some u => rw [hsome noFaults u rfl hu, recordOf_of_some hu]
    | none => rw [hnone noFaults rfl rfl hu, recordOf_of_none hu]
  · cases hu : FindOne coll userId with
    | some u => rw [hsome noFaults u rfl hu, recordOf_of_some hu]; exact hu
    | none =>
      rw [hnone noFaults rfl rfl hu, recordOf_of_none hu]
      have hu1 : FindOne coll (freshUser userId).Username = none := hu
      exact FindOne_InsertOne_of_none hu1
  · intro u hu
    rw [hsome noFaults u rfl hu]
  · intro hu
    rw [hnone noFaults rfl rfl hu]
  · intro f
    by_cases hf : f.FindOne = true
    · simp [checkFlagHandler, getLevelHandler, hid, hflag, hf]
    · have hf0 : f.FindOne = false := by simpa using hf
      cases hu : FindOne coll userId with
      | some u =>
        rw [hsome f u hf0 hu]
        simp [getLevelHandler, hid, hf0, hu]
      | none =>
        cases hi : f.InsertOne with
        | failed => simp [checkFlagHandler, getLevelHandler, hid, hflag, hf0, hi, hu]
        | failedApplied => simp [checkFlagHandler, getLevelHandler, hid, hflag, hf0, hi, hu]
        | ok =>
          rw [hnone f hf0 hi hu]
          simp [getLevelHandler, hid, hf0, hi, hu, InsertOne, freshUser]

/-- Claim C5 at a guess that differs from a catalog flag only in letter case. -/
theorem checkFlag_incorrect_witness :
    "bob" ≠ "" ∧ "FLAG{pwn_it}" ≠ "" ∧ (∀ c ∈ challenges, c.flag ≠ "FLAG{pwn_it}") ∧
    (checkFlagHandler [⟨"bob", "", 100, [1]⟩] noFaults "bob" "FLAG{pwn_it}").2 =
      .json ⟨false, getCurrentLevelForUser (some (recordOf [⟨"bob", "", 100, [1]⟩] "bob"))⟩ :=
  ⟨by decide, by decide, by decide,
    (checkFlag_incorrect [⟨"bob", "", 100, [1]⟩] "bob" "FLAG{pwn_it}"
      (by decide) (by decide) (by decide)).1⟩

/-! ## No partial update (claim C6) -/

/-- Claim C6 as stated fails when `UpdateOne` returns an error after the server
applied the write: the handler answers 500 "failed to update user" and the
stored record is changed, from score 100 and levels [1] to score 500 and levels
[1, 7]. -/
theorem checkFlag_failed_update_changes_record :
    (checkFlagHandler [⟨"bob", "", 100, [1]⟩] ⟨false, .ok, .failedApplied, .ok, .ok⟩ "bob"
        "flag{pwn_it}").2 = .error 500 "failed to update user" ∧
    FindOne [⟨"bob", "", 100, [1]⟩] "bob" = some ⟨"bob", "", 100, [1]⟩ ∧
    FindOne (checkFlagHandler [⟨"bob", "", 100, [1]⟩] ⟨false, .ok, .failedApplied, .ok, .ok⟩
        "bob" "flag{pwn_it}").1 "bob" = some ⟨"bob", "", 500, [1, 7]⟩ ∧
    FindOne (checkFlagHandler [⟨"bob", "", 100, [1]⟩] ⟨false, .ok, .failedApplied, .ok, .ok⟩
        "bob" "flag{pwn_it}").1 "bob" ≠ FindOne [⟨"bob", "", 100, [1]⟩] "bob" := by
  decide

/-- Claim C6, amended: for every collection, identifier, submitted string and
choice of failing driver calls, the record stored for the identifier after
`checkFlagHandler` is the one stored before (none, when there was none), or the
fresh record of a user just created, or the record worked on with the level
appended and the points added (in `int` arithmetic) together; a submission that
reaches a failing `UpdateOne` is answered with 500 "failed to update user", and
the stored record is then the one worked on when the failed write was not
applied, and the one with both the level and the points added when it was
applied. -/
theorem checkFlag_no_partial_update (coll : Store) (f : Faults) (userId flag : String) :
    (FindOne (checkFlagHandler coll f userId flag).1 userId = FindOne coll userId ∨
      (FindOne coll userId = none ∧
        FindOne (checkFlagHandler coll f userId flag).1 userId = some (freshUser userId)) ∨
      ∃ c ∈ challenges, c.flag = flag ∧ c.level ∉ (recordOf coll userId).SolvedLevels ∧
        FindOne (checkFlagHandler coll f userId flag).1 userId =
          some { recordOf coll userId with
                  SolvedLevels := (recordOf coll userId).SolvedLevels ++ [c.level],
                  Score := wrap64 ((recordOf coll userId).Score + c.points) }) ∧
    (f.UpdateOne ≠ .ok → userId ≠ "" → f.FindOne = false →
      (FindOne coll userId ≠ none ∨ f.InsertOne = .ok) →
      ∀ c ∈ challenges, c.flag = flag → c.level ∉ (recordOf coll userId).SolvedLevels →
        (checkFlagHandler coll f userId flag).2 = .error 500 "failed to update user" ∧
        (f.UpdateOne = .failed →
          FindOne (checkFlagHandler coll f userId flag).1 userId =
            some (recordOf coll userId)) ∧
        (f.UpdateOne = .failedApplied →
          FindOne (checkFlagHandler coll f userId flag).1 userId =
            some { recordOf coll userId with
                    SolvedLevels := (recordOf coll userId).SolvedLevels ++ [c.level],
                    Score := wrap64 ((recordOf coll userId).Score + c.points) })) := by
  -- the body, run on a collection where `FindOne` returns the record worked on
  have hbody : ∀ (s : Store) (u : User), FindOne s userId = some u →
      (FindOne (checkFlagBody s f userId flag u).1 userId = some u ∨
        ∃ c ∈ challenges, c.flag = flag ∧ c.level ∉ u.SolvedLevels ∧
          FindOne (checkFlagBody s f userId flag u).1 userId =
            some { u with SolvedLevels := u.SolvedLevels ++ [c.level],
                          Score := wrap64 (u.Score + c.points) }) ∧
      (f.UpdateOne ≠ .ok →
        ∀ c ∈ challenges, c.flag = flag → c.level ∉ u.SolvedLevels →
          (checkFlagBody s f userId flag u).2 = .error 500 "failed to update user" ∧
          (f.UpdateOne = .failed →
            FindOne (checkFlagBody s f userId flag u).1 userId = some u) ∧
          (f.UpdateOne = .failedApplied →
            FindOne (checkFlagBody s f userId flag u).1 userId =
              some { u with SolvedLevels := u.SolvedLevels ++ [c.level],
                            Score := wrap64 (u.Score + c.points) })) := by
    intro s u hu
    constructor
    · rcases checkFlagBody_store s f userId flag u with h | ⟨c, hc, hcf, hs, _, h⟩
      · left; rw [h, hu]
      · right
        refine ⟨c, hc, hcf, hs, ?_⟩
        rw [h, FindOne_UpdateOne_same, hu]
        rfl
    · intro hupd c hc hcf hs
      subst hcf
      cases hf : f.UpdateOne with
      | ok => exact absurd hf hupd
      | failed =>
        rw [checkFlagBody_of_new_failed s f userId u hc hs hf]
        exact ⟨rfl, fun _ => hu, fun h => absurd h (by decide)⟩
      | failedApplied =>
        rw [checkFlagBody_of_new_failedApplied s f userId u hc hs hf]
        refine ⟨rfl, fun h => absurd h (by decide), fun _ => ?_⟩
        show FindOne (UpdateOne s userId _ _) userId = _
        rw [FindOne_UpdateOne_same, hu]
        rfl
  by_cases hbad : userId = "" ∨ flag = ""
  · have h : checkFlagHandler coll f userId flag =
        (coll, .error 400 "userId and flag are required") := by
      simp [checkFlagHandler, hbad]
    rw [h]
    refine ⟨Or.inl rfl, ?_⟩
    intro _ hid _ _ c hc hcf _
    rcases hbad with hbad | hbad
    · exact absurd hbad hid
    · exact absurd (hcf.trans hbad) (flag_ne_empty_of_mem c hc)
  · have hid : userId ≠ "" := fun h => hbad (Or.inl h)
    have hflag : flag ≠ "" := fun h => hbad (Or.inr h)
    by_cases hf : f.FindOne = true
    · have h : checkFlagHandler coll f userId flag = (coll, .error 500 "db error") := by
        simp [checkFlagHandler, hid, hflag, hf]
      rw [h]
      refine ⟨Or.inl rfl, ?_⟩
      intro _ _ hf0 _ _ _ _ _
      rw [hf] at hf0
      exact absurd hf0 (by decide)
    · have hf0 : f.FindOne = false := by simpa using hf
      cases hu : FindOne coll userId with
      | some u =>
        rw [recordOf_of_some hu, checkFlagHandler_of_some f hid hflag hf0 hu]
        obtain ⟨h1, h2⟩ := hbody coll u hu
        refine ⟨?_, fun hupd _ _ _ => h2 hupd⟩
        rcases h1 with h1 | h1
        · exact Or.inl h1
        · exact Or.inr (Or.inr h1)
      | none =>
        have hu1 : FindOne coll (freshUser userId).Username = none := hu
        have hins : FindOne (InsertOne coll (freshUser userId)) userId =
            some (freshUser userId) := FindOne_InsertOne_of_none hu1
        by_cases hi : f.InsertOne = .ok
        · rw [recordOf_of_none hu, checkFlagHandler_of_none f hid hflag hf0 hi hu]
          obtain ⟨h1, h2⟩ := hbody (InsertOne coll (freshUser userId)) (freshUser userId) hins
          refine ⟨?_, fun hupd _ _ _ => h2 hupd⟩
          rcases h1 with h1 | h1
          · exact Or.inr (Or.inl ⟨rfl, h1⟩)
          · exact Or.inr (Or.inr h1)
        · rw [checkFlagHandler_of_none_fail f hid hflag hf0 hi hu]
          constructor
          · by_cases ha : f.InsertOne = .failedApplied
            · right; left
              rw [if_pos ha]
              exact ⟨rfl, hins⟩
            · left
              rw [if_neg ha]
              exact hu
          · intro _ _ _ hreach _ _ _ _
            rcases hreach with hreach | hreach
            · exact absurd rfl hreach
            · exact absurd hreach hi

/-- Claim C6, amended, at a first-time correct submission whose `UpdateOne`
fails without being applied: the answer is the error and the stored record is
the old one. -/
theorem checkFlag_no_partial_update_witness :
    (⟨false, .ok, .failed, .ok, .ok⟩ : Faults).UpdateOne ≠ .ok ∧
    (checkFlagHandler [⟨"bob", "", 100, [1]⟩] ⟨false, .ok, .failed, .ok, .ok⟩ "bob"
        "flag{pwn_it}").2 = .error 500 "failed to update user" ∧
    FindOne (checkFlagHandler [⟨"bob", "", 100, [1]⟩] ⟨false, .ok, .failed, .ok, .ok⟩ "bob"
        "flag{pwn_it}").1 "bob" = some (recordOf [⟨"bob", "", 100, [1]⟩] "bob") :=
  ⟨by decide,
    ((checkFlag_no_partial_update [⟨"bob", "", 100, [1]⟩] ⟨false, .ok, .failed, .ok, .ok⟩
      "bob" "flag{pwn_it}").2 (by decide) (by decide) rfl (Or.inl (by decide))
      ⟨7, "flag{pwn_it}", 400⟩ (by decide) rfl (by decide)).1,
    ((checkFlag_no_partial_update [⟨"bob", "", 100, [1]⟩] ⟨false, .ok, .failed, .ok, .ok⟩
      "bob" "flag{pwn_it}").2 (by decide) (by decide) rfl (Or.inl (by decide))
      ⟨7, "flag{pwn_it}", 400⟩ (by decide) rfl (by decide)).2.1 rfl⟩

/-! ## Reset and lazy creation (claims C7, C8) -/

/-- `UpdateOne` keeps the number of documents. -/
theorem length_UpdateOne (coll : Store) (id : String) (sl : List Int) (sc : Int) :
    (UpdateOne coll id sl sc).length = coll.length := by
  induction coll with
  | nil => rfl
  | cons w rest ih =>
    by_cases hw : w.Username = id
    · rw [UpdateOne_cons_pos rest sl sc hw]; rfl
    · rw [UpdateOne_cons_neg rest sl sc hw, List.length_cons, List.length_cons, ih]

/-- Claim C7: with a working store and a non-empty identifier, `resetUserHandler`
on an identifier with a stored record answers `success: true` and leaves that
record with score 0 and no solved levels, its username and password as they
were, the records found under other identifiers and the number of documents
unchanged; on an identifier without a stored record it answers 404 "user not
found" and leaves the collection as it was. -/
theorem resetUser_iff_exists (coll : Store) (userId : String) (hid : userId ≠ "") :
    (∀ u, FindOne coll userId = some u →
      (resetUserHandler coll noFaults userId).2 = .json true ∧
      FindOne (resetUserHandler coll noFaults userId).1 userId =
        some { u with SolvedLevels := [], Score := 0 } ∧
      (∀ other, other ≠ userId →
        FindOne (resetUserHandler coll noFaults userId).1 other = FindOne coll other) ∧
      (resetUserHandler coll noFaults userId).1.length = coll.length) ∧
    (FindOne coll userId = none →
      resetUserHandler coll noFaults userId = (coll, .error 404 "user not found")) := by
  constructor
  · intro u hu
    have h : resetUserHandler coll noFaults userId = (UpdateOne coll userId [] 0, .json true) := by
      simp [resetUserHandler, FindOneAndUpdate, hid, hu, noFaults]
    rw [h]
    refine ⟨rfl, ?_, ?_, length_UpdateOne coll userId [] 0⟩
    · show FindOne (UpdateOne coll userId [] 0) userId = _
      rw [FindOne_UpdateOne_same, hu]
      rfl
    · intro other hne
      exact FindOne_UpdateOne_other coll userId other [] 0 hne
  · intro hu
    simp [resetUserHandler, FindOneAndUpdate, hid, hu, noFaults]

/-- Claim C7 at a stored user with two solved levels. -/
theorem resetUser_iff_exists_witness :
    "bob" ≠ "" ∧
    FindOne [⟨"bob", "", 250, [1, 2]⟩] "bob" = some ⟨"bob", "", 250, [1, 2]⟩ ∧
    (resetUserHandler [⟨"bob", "", 250, [1, 2]⟩] noFaults "bob").2 = .json true ∧
    FindOne (resetUserHandler [⟨"bob", "", 250, [1, 2]⟩] noFaults "bob").1 "bob" =
      some { (⟨"bob", "", 250, [1, 2]⟩ : User) with SolvedLevels := [], Score := 0 } :=
  ⟨by decide, by decide,
    ((resetUser_iff_exists [⟨"bob", "", 250, [1, 2]⟩] "bob" (by decide)).1
      ⟨"bob", "", 250, [1, 2]⟩ (by decide)).1,
    ((resetUser_iff_exists [⟨"bob", "", 250, [1, 2]⟩] "bob" (by decide)).1
      ⟨"bob", "", 250, [1, 2]⟩ (by decide)).2.1⟩

/-- Claim C8: with a working store and a non-empty identifier, `getLevelHandler`
on an identifier without a stored record appends the record with that
identifier, score 0 and no solved levels (which `FindOne` then returns) and
answers level 1; on an identifier with a stored record it leaves the collection
as it was and answers the current level of that record.  `checkFlagHandler`
does the same step first: it is its own body (catalog lookup and what follows)
run on the collection a level query leaves and on the record of the
identifier. -/
theorem getLevel_getOrCreate (coll : Store) (userId : String) (hid : userId ≠ "") :
    (FindOne coll userId = none →
      getLevelHandler coll noFaults userId = (coll ++ [⟨userId, "", 0, []⟩], .json 1) ∧
      FindOne (getLevelHandler coll noFaults userId).1 userId = some ⟨userId, "", 0, []⟩) ∧
    (∀ u, FindOne coll userId = some u →
      getLevelHandler coll noFaults userId = (coll, .json (getCurrentLevelForUser (some u)))) ∧
    (∀ flag, flag ≠ "" →
      checkFlagHandler coll noFaults userId flag =
        checkFlagBody (getLevelHandler coll noFaults userId).1 noFaults userId flag
          (recordOf coll userId)) := by
  have hnone : FindOne coll userId = none →
      getLevelHandler coll noFaults userId = (coll ++ [⟨userId, "", 0, []⟩], .json 1) := by
    intro hu
    simp [getLevelHandler, hid, hu, noFaults, InsertOne, getCurrentLevelForUser]
  have hsome : ∀ u, FindOne coll userId = some u →
      getLevelHandler coll noFaults userId =
        (coll, .json (getCurrentLevelForUser (some u))) := by
    intro u hu
    simp [getLevelHandler, hid, hu, noFaults]
  refine ⟨?_, hsome, ?_⟩
  · intro hu
    refine ⟨hnone hu, ?_⟩
    rw [hnone hu]
    have hu1 : FindOne coll (freshUser userId).Username = none := hu
    exact FindOne_InsertOne_of_none hu1
  · intro flag hflag
    cases hu : FindOne coll userId with
    | some u =>
      rw [hsome u hu, recordOf_of_some hu, checkFlagHandler_of_some noFaults hid hflag rfl hu]
    | none =>
      rw [hnone hu, recordOf_of_none hu, checkFlagHandler_of_none noFaults hid hflag rfl rfl hu]
      rfl

/-- Claim C8 at the first level query of a new user on the empty collection. -/
theorem getLevel_getOrCreate_witness :
    "bob" ≠ "" ∧ FindOne [] "bob" = none ∧
    getLevelHandler [] noFaults "bob" = ([] ++ [⟨"bob", "", 0, []⟩], .json 1) :=
  ⟨by decide, by decide,
    ((getLevel_getOrCreate [] "bob" (by decide)).1 (by decide)).1⟩

/-! ## Invariants of request sequences (claims C3, C10) -/

/-- The body of the flag handler keeps a preserved property on all documents. -/
theorem checkFlagBody_preserves {P : User → Prop} (hP : Preserved P) (coll : Store)
    (f : Faults) (userId flag : String) (u : User) (hu : FindOne coll userId = some u)
    (hall : ∀ v ∈ coll, P v) : ∀ v ∈ (checkFlagBody coll f userId flag u).1, P v := by
  rcases checkFlagBody_store coll f userId flag u with h | ⟨c, hc, _, hs, _, h⟩
  · rw [h]; exact hall
  · rw [h]
    intro v hv
    rcases mem_UpdateOne hv with hv | ⟨w, hw, e⟩
    · exact hall v hv
    · rw [hu] at hw
      cases hw
      rw [e]
      exact hP.credit u c (hall u (FindOne_mem hu)) hc hs

/-- `InsertOne` of the fresh record keeps a preserved property on all
documents. -/
theorem InsertOne_preserves {P : User → Prop} (hP : Preserved P) (coll : Store)
    (userId : String) (hid : userId ≠ "") (hall : ∀ v ∈ coll, P v) :
    ∀ v ∈ InsertOne coll ⟨userId, "", 0, []⟩, P v := by
  intro v hv
  rcases List.mem_append.mp hv with hv | hv
  · exact hall v hv
  · rw [List.mem_singleton.mp hv]; exact hP.fresh userId hid

/-- `FindOneAndUpdate` with the reset values keeps a preserved property on all
documents. -/
theorem FindOneAndUpdate_preserves {P : User → Prop} (hP : Preserved P) (coll : Store)
    (userId : String) (hall : ∀ v ∈ coll, P v) :
    ∀ v ∈ (FindOneAndUpdate coll userId [] 0).1, P v := by
  cases hu : FindOne coll userId with
  | none => simpa [FindOneAndUpdate, hu] using hall
  | some u =>
    simp only [FindOneAndUpdate, hu]
    intro v hv
    rcases mem_UpdateOne hv with hv | ⟨w, hw, e⟩
    · exact hall v hv
    · rw [hu] at hw
      cases hw
      rw [e]
      exact hP.reset u (hall u (FindOne_mem hu))

/-- One request keeps a preserved property on all documents. -/
theorem step_preserves {P : User → Prop} (hP : Preserved P) (coll : Store)
    (fr : Faults × Request) (hall : ∀ v ∈ coll, P v) : ∀ v ∈ step coll fr, P v := by
  obtain ⟨f, r⟩ := fr
  have hins := InsertOne_preserves hP coll
  cases r with
  | getLevel userId =>
    show ∀ v ∈ (getLevelHandler coll f userId).1, P v
    unfold getLevelHandler
    split
    · exact hall
    · rename_i hid
      split
      · exact hall
      · split
        · split
          · exact hall
          · exact hins userId hid hall
          · exact hins userId hid hall
        · exact hall
  | checkFlag userId flag =>
    show ∀ v ∈ (checkFlagHandler coll f userId flag).1, P v
    unfold checkFlagHandler
    split
    · exact hall
    · rename_i hbad
      have hid : userId ≠ "" := fun h => hbad (Or.inl h)
      split
      · exact hall
      · split
        · rename_i hu
          have hu1 : FindOne coll (freshUser userId).Username = none := hu
          split
          · exact hall
          · exact hins userId hid hall
          · exact checkFlagBody_preserves hP _ f userId flag _
              (FindOne_InsertOne_of_none hu1) (hins userId hid hall)
        · rename_i u hu
          exact checkFlagBody_preserves hP coll f userId flag u hu hall
  | resetUser userId =>
    show ∀ v ∈ (resetUserHandler coll f userId).1, P v
    have hfu := FindOneAndUpdate_preserves hP coll userId hall
    unfold resetUserHandler
    split
    · exact hall
    · split
      · exact hall
      · exact hfu
      · split
        · exact hall
        · rename_i coll1 _ heq
          have : coll1 = (FindOneAndUpdate coll userId [] 0).1 := by rw [heq]
          rw [this]
          exact hfu
  | deleteUser userId =>
    show ∀ v ∈ (deleteUserHandler coll f userId).1, P v
    unfold deleteUserHandler
    split
    · exact hall
    · split
      · exact hall
      · intro v hv
        exact hall v (mem_DeleteOne hv)
      · intro v hv
        exact hall v (mem_DeleteOne hv)

/-- A preserved property holds of every document after every request sequence
from any collection where it holds. -/
theorem foldl_step_preserves {P : User → Prop} (hP : Preserved P)
    (trace : List (Faults × Request)) (coll : Store) (hall : ∀ v ∈ coll, P v) :
    ∀ v ∈ trace.foldl step coll, P v := by
  induction trace generalizing coll with
  | nil => exact hall
  | cons fr rest ih => exact ih (step coll fr) (step_preserves hP coll fr hall)

/-- A preserved property holds of every document after every request sequence
from the empty collection. -/
theorem run_preserves {P : User → Prop} (hP : Preserved P)
    (trace : List (Faults × Request)) : ∀ v ∈ run trace, P v :=
  foldl_step_preserves hP trace [] (fun _ hv => absurd hv (List.not_mem_nil _))

/-- Listing only catalog levels is preserved. -/
theorem LevelsInCatalog_preserved : Preserved LevelsInCatalog where
  fresh := fun _ _ v hv => absurd hv (List.not_mem_nil _)
  credit := by
    intro u c hu hc _ v hv
    rcases List.mem_append.mp hv with hv | hv
    · exact hu v hv
    · exact ⟨c, hc, (List.mem_singleton.mp hv).symm⟩
  reset := fun _ _ v hv => absurd hv (List.not_mem_nil _)

/-- A record listing only catalog levels has a current level between 1 and 11. -/
theorem getCurrentLevelForUser_le_of_LevelsInCatalog (u : User) (h : LevelsInCatalog u) :
    1 ≤ getCurrentLevelForUser (some u) ∧ getCurrentLevelForUser (some u) ≤ 11 := by
  by_cases hlen : u.SolvedLevels.length = 0
  · simp [getCurrentLevelForUser, hlen]
  · simp only [getCurrentLevelForUser, hlen, if_false]
    have h0 := le_maxLoop u.SolvedLevels 0
    have hle : u.SolvedLevels.foldl (fun max v => if v > max then v else max) 0 ≤ 10 := by
      rcases maxLoop_eq_or_mem u.SolvedLevels 0 with e | hm
      · omega
      · obtain ⟨c, hc, e⟩ := h _ hm
        have := level_bounds_of_mem c hc
        rw [e] at this
        omega
    rw [wrap64_of_IsInt64 ⟨by omega, by omega⟩]
    constructor <;> omega

/-- No level number is worth negative points. -/
theorem pointsOfLevel_nonneg (v : Int) : 0 ≤ pointsOfLevel v := by
  unfold pointsOfLevel
  cases h : challenges.find? (fun c => c.level == v) with
  | none => exact le_refl _
  | some c =>
    have hc : c ∈ challenges := List.mem_of_find?_eq_some h
    have hall : ∀ c ∈ challenges, 0 ≤ c.points := by decide
    exact hall c hc

/-- The points of distinct catalog levels add up to at most 3700, the points
of the whole catalog. -/
theorem sum_points_le (l : List Int) (hnd : l.Nodup)
    (hcat : ∀ v ∈ l, ∃ c ∈ challenges, c.level = v) :
    (l.map pointsOfLevel).sum ≤ 3700 := by
  have hsub : l ⊆ challenges.map (fun c => c.level) := by
    intro v hv
    obtain ⟨c, hc, e⟩ := hcat v hv
    exact List.mem_map.mpr ⟨c, hc, e⟩
  obtain ⟨l1, hperm, hsl⟩ := List.subperm_of_subset hnd hsub
  have h1 : (l.map pointsOfLevel).sum = (l1.map pointsOfLevel).sum :=
    ((hperm.map pointsOfLevel).sum_eq).symm
  have h2 : (l1.map pointsOfLevel).sum ≤
      ((challenges.map (fun c => c.level)).map pointsOfLevel).sum := by
    refine List.Sublist.sum_le_sum (hsl.map pointsOfLevel) ?_
    intro a ha
    obtain ⟨v, _, e⟩ := List.mem_map.mp ha
    rw [← e]
    exact pointsOfLevel_nonneg v
  have h3 : ((challenges.map (fun c => c.level)).map pointsOfLevel).sum = 3700 := by decide
  omega

/-- The points of any levels add up to at least 0. -/
theorem sum_points_nonneg (l : List Int) : 0 ≤ (l.map pointsOfLevel).sum := by
  apply List.sum_nonneg
  intro a ha
  obtain ⟨v, _, e⟩ := List.mem_map.mp ha
  rw [← e]
  exact pointsOfLevel_nonneg v

/-- The score invariant together with listing only catalog levels is
preserved: the score of such a record is between 0 and 3700, so adding the
points of one more challenge does not wrap. -/
theorem ScoreInvariant_preserved :
    Preserved (fun u => ScoreInvariant u ∧ LevelsInCatalog u) where
  fresh := fun userId hid =>
    ⟨⟨List.nodup_nil, rfl⟩, (LevelsInCatalog_preserved).fresh userId hid⟩
  credit := by
    intro u c ⟨⟨hnd, hsc⟩, hcat⟩ hc hs
    refine ⟨⟨?_, ?_⟩, (LevelsInCatalog_preserved).credit u c hcat hc hs⟩
    · exact List.Nodup.append hnd (List.nodup_singleton _) (by simpa using hs)
    · show wrap64 (u.Score + c.points) = ((u.SolvedLevels ++ [c.level]).map pointsOfLevel).sum
      have hlo := sum_points_nonneg u.SolvedLevels
      have hhi := sum_points_le u.SolvedLevels hnd hcat
      have hp : 0 ≤ c.points ∧ c.points ≤ 1000 := by
        have hall : ∀ c ∈ challenges, 0 ≤ c.points ∧ c.points ≤ 1000 := by decide
        exact hall c hc
      rw [wrap64_of_IsInt64 ⟨by omega, by omega⟩, List.map_append, List.sum_append, ← hsc,
        List.map_singleton, List.sum_singleton, pointsOfLevel_of_mem c hc]
  reset := fun u h => ⟨⟨List.nodup_nil, rfl⟩, (LevelsInCatalog_preserved).reset u h.2⟩

/-- After every request sequence from the empty collection every stored record
lists levels between 1 and 10 only and has a score between 0 and 3700: the
handlers never leave the range of a 64-bit `int`. -/
theorem run_bounded (trace : List (Faults × Request)) :
    ∀ u ∈ run trace,
      (∀ v ∈ u.SolvedLevels, 1 ≤ v ∧ v ≤ 10) ∧ 0 ≤ u.Score ∧ u.Score ≤ 3700 := by
  intro u hu
  obtain ⟨⟨hnd, hsc⟩, hcat⟩ := run_preserves ScoreInvariant_preserved trace u hu
  refine ⟨?_, ?_, ?_⟩
  · intro v hv
    obtain ⟨c, hc, e⟩ := hcat v hv
    rw [← e]
    exact level_bounds_of_mem c hc
  · rw [hsc]
    exact sum_points_nonneg u.SolvedLevels
  · rw [hsc]
    exact sum_points_le u.SolvedLevels hnd hcat

/-- Claim C3: after every finite sequence of level queries, flag submissions,
resets and deletions served one after the other from the empty collection, with
arbitrary identifiers, flags and failing driver calls, every stored record
lists no level twice, lists catalog levels only, and has as score the sum of
the catalog points of the levels it lists. -/
theorem run_ScoreInvariant (trace : List (Faults × Request)) :
    ∀ u ∈ run trace,
      u.SolvedLevels.Nodup ∧
      (∀ v ∈ u.SolvedLevels, ∃ c ∈ challenges, c.level = v) ∧
      u.Score = (u.SolvedLevels.map pointsOfLevel).sum :=
  fun u hu =>
    ⟨(run_preserves ScoreInvariant_preserved trace u hu).1.1,
      (run_preserves ScoreInvariant_preserved trace u hu).2,
      (run_preserves ScoreInvariant_preserved trace u hu).1.2⟩

/-- Claim C3 at the record left by submitting the flag of level 7 twice. -/
theorem run_ScoreInvariant_witness :
    (⟨"bob", "", 400, [7]⟩ : User) ∈
      run [(noFaults, .checkFlag "bob" "flag{pwn_it}"),
           (noFaults, .checkFlag "bob" "flag{pwn_it}")] ∧
    (⟨"bob", "", 400, [7]⟩ : User).SolvedLevels.Nodup ∧
    (∀ v ∈ (⟨"bob", "", 400, [7]⟩ : User).SolvedLevels, ∃ c ∈ challenges, c.level = v) ∧
    (⟨"bob", "", 400, [7]⟩ : User).Score =
      ((⟨"bob", "", 400, [7]⟩ : User).SolvedLevels.map pointsOfLevel).sum :=
  ⟨by decide,
    run_ScoreInvariant
      [(noFaults, .checkFlag "bob" "flag{pwn_it}"), (noFaults, .checkFlag "bob" "flag{pwn_it}")]
      ⟨"bob", "", 400, [7]⟩ (by decide)⟩

/-- Having a non-empty username is preserved. -/
theorem Username_ne_empty_preserved : Preserved (fun u => u.Username ≠ "") where
  fresh := fun _ hid => hid
  credit := fun _ _ h _ _ => h
  reset := fun _ h => h

/-- With a working store `resetUserHandler` on a non-empty identifier with a
stored record sets both fields of that record and answers `success: true`. -/
theorem resetUserHandler_of_some {coll : Store} {userId : String} {u : User}
    (hid : userId ≠ "") (hu : FindOne coll userId = some u) :
    resetUserHandler coll noFaults userId = (UpdateOne coll userId [] 0, .json true) := by
  simp [resetUserHandler, FindOneAndUpdate, hid, hu, noFaults]

/-- The collection after a request sequence followed by one more request. -/
theorem run_append_singleton (trace : List (Faults × Request)) (fr : Faults × Request) :
    run (trace ++ [fr]) = step (run trace) fr := by
  simp [run, List.foldl_append]

/-- Claim C10 as stated fails: the current level is not unbounded over the
reachable collections, and a current level of 12 is not reachable. -/
theorem currentLevel_not_unbounded :
    (¬ ∀ n : Int, ∃ trace, ∃ u ∈ run trace, n < getCurrentLevelForUser (some u)) ∧
    ¬ ∃ trace, ∃ u ∈ run trace, getCurrentLevelForUser (some u) = 12 := by
  constructor
  · intro h
    obtain ⟨trace, u, hu, hlt⟩ := h 11
    have := getCurrentLevelForUser_le_of_LevelsInCatalog u
      (run_preserves LevelsInCatalog_preserved trace u hu)
    omega
  · rintro ⟨trace, u, hu, e⟩
    have := getCurrentLevelForUser_le_of_LevelsInCatalog u
      (run_preserves LevelsInCatalog_preserved trace u hu)
    omega

/-- Claim C10, amended: there is no terminal state, and the current level stays
within the catalog plus one.  After every request sequence from the empty
collection every stored record has a current level between 1 and 11; level 11
is reached (by solving level 10 alone); and whenever the record stored for an
identifier is at level 11, a reset request for that identifier with a working
store changes that very record: afterwards the record stored for the identifier
is the old one with score 0 and no solved levels, which differs from the old
one and is at level 1. -/
theorem currentLevel_le_eleven :
    (∀ trace, ∀ u ∈ run trace,
      1 ≤ getCurrentLevelForUser (some u) ∧ getCurrentLevelForUser (some u) ≤ 11) ∧
    (∃ trace userId u, FindOne (run trace) userId = some u ∧
      getCurrentLevelForUser (some u) = 11) ∧
    (∀ trace userId u, FindOne (run trace) userId = some u →
      getCurrentLevelForUser (some u) = 11 →
      FindOne (run (trace ++ [(noFaults, .resetUser userId)])) userId =
        some { u with SolvedLevels := [], Score := 0 } ∧
      ({ u with SolvedLevels := [], Score := 0 } : User) ≠ u ∧
      getCurrentLevelForUser (some { u with SolvedLevels := [], Score := 0 }) = 1) := by
  refine ⟨?_, ?_, ?_⟩
  · intro trace u hu
    exact getCurrentLevelForUser_le_of_LevelsInCatalog u
      (run_preserves LevelsInCatalog_preserved trace u hu)
  · exact ⟨[(noFaults, .checkFlag "bob" "flag{ctf_mastery}")], "bob", ⟨"bob", "", 1000, [10]⟩,
      by decide, by decide⟩
  · intro trace userId u hu hlvl
    have hid : userId ≠ "" := by
      have h1 := run_preserves Username_ne_empty_preserved trace u (FindOne_mem hu)
      rw [FindOne_username hu] at h1
      exact h1
    refine ⟨?_, ?_, ?_⟩
    · rw [run_append_singleton]
      show FindOne (resetUserHandler (run trace) noFaults userId).1 userId = _
      rw [resetUserHandler_of_some hid hu]
      show FindOne (UpdateOne (run trace) userId [] 0) userId = _
      rw [FindOne_UpdateOne_same, hu]
      rfl
    · intro e
      have hnil : u.SolvedLevels = [] := by
        have := congrArg User.SolvedLevels e
        exact this.symm
      rw [getCurrentLevelForUser] at hlvl
      simp [hnil] at hlvl
    · simp [getCurrentLevelForUser]

/-! ## Concurrent submissions of one flag (claim C9) -/

/-- A request served alone makes its three steps one after the other, and that
is `checkFlagHandler`: the steps are the handler cut at its driver calls. -/
theorem threadStep_sequential (coll : Store) (f : Faults) (userId flag : String) :
    threadStep
        (threadStep (threadStep coll f userId flag .start).1 f userId flag
          (threadStep coll f userId flag .start).2).1 f userId flag
        (threadStep (threadStep coll f userId flag .start).1 f userId flag
          (threadStep coll f userId flag .start).2).2 =
      ((checkFlagHandler coll f userId flag).1,
        .done (checkFlagHandler coll f userId flag).2) := by
  by_cases hbad : userId = "" ∨ flag = ""
  · simp [threadStep, checkFlagHandler, hbad]
  · by_cases hf : f.FindOne = true
    · simp [threadStep, checkFlagHandler, hbad, hf]
    · cases hu : FindOne coll userId with
      | some u => simp [threadStep, checkFlagHandler, hbad, hf, hu]
      | none =>
        cases hi : f.InsertOne <;> simp [threadStep, checkFlagHandler, hbad, hf, hu, hi]

/-- A lookup that succeeds on a collection succeeds alike with documents
appended. -/
theorem FindOne_append_of_some {a : Store} {id : String} {x : User} (b : Store)
    (h : FindOne a id = some x) : FindOne (a ++ b) id = some x := by
  unfold FindOne at h
  simp [FindOne, List.find?_append, h]

/-- A lookup that fails on a collection looks into the documents appended. -/
theorem FindOne_append_of_none {a : Store} {id : String} (b : Store)
    (h : FindOne a id = none) : FindOne (a ++ b) id = FindOne b id := by
  unfold FindOne at h
  simp [FindOne, List.find?_append, h]

/-- `UpdateOne` on a collection with a document of the username does not reach
documents appended. -/
theorem UpdateOne_append_of_some {a : Store} {id : String} {x : User} (b : Store)
    (sl : List Int) (sc : Int) (h : FindOne a id = some x) :
    UpdateOne (a ++ b) id sl sc = UpdateOne a id sl sc ++ b := by
  induction a with
  | nil => simp [FindOne] at h
  | cons w rest ih =>
    by_cases hw : w.Username = id
    · rw [List.cons_append, UpdateOne_cons_pos _ sl sc hw, UpdateOne_cons_pos _ sl sc hw]
      rfl
    · rw [FindOne_cons_neg rest hw] at h
      rw [List.cons_append, UpdateOne_cons_neg _ sl sc hw, UpdateOne_cons_neg _ sl sc hw,
        ih h]
      rfl

/-- Writing the same values twice is writing them once. -/
theorem UpdateOne_idem (s : Store) (id : String) (sl : List Int) (sc : Int) :
    UpdateOne (UpdateOne s id sl sc) id sl sc = UpdateOne s id sl sc := by
  induction s with
  | nil => rfl
  | cons w rest ih =>
    by_cases hw : w.Username = id
    · rw [UpdateOne_cons_pos rest sl sc hw,
        UpdateOne_cons_pos rest sl sc
          (show ({ w with SolvedLevels := sl, Score := sc } : User).Username = id from hw)]
    · rw [UpdateOne_cons_neg rest sl sc hw, UpdateOne_cons_neg _ sl sc hw, ih]

/-- One more fresh record is appended at the end. -/
theorem pending_succ (coll : Store) (userId : String) (k : Nat) :
    pending coll userId (k + 1) = pending coll userId k ++ [freshUser userId] := by
  simp [pending, List.replicate_succ', List.append_assoc]

/-- The record found among the inserted fresh records or before them is the
record the requests started from. -/
theorem FindOne_pending_eq {coll : Store} {userId : String} {k : Nat} {x : User}
    (h : FindOne (pending coll userId k) userId = some x) : x = recordOf coll userId := by
  cases hu : FindOne coll userId with
  | some u =>
    rw [pending, FindOne_append_of_some _ hu] at h
    rw [recordOf_of_some hu]
    exact (Option.some.inj h).symm
  | none =>
    rw [pending, FindOne_append_of_none _ hu] at h
    rw [recordOf_of_none hu]
    exact List.eq_of_mem_replicate (FindOne_mem h)

/-- A record found stays the record found when one more fresh record is
inserted. -/
theorem FindOne_pending_succ {coll : Store} {userId : String} {k : Nat} {x : User}
    (h : FindOne (pending coll userId k) userId = some x) :
    FindOne (pending coll userId (k + 1)) userId = some x := by
  rw [pending_succ]
  exact FindOne_append_of_some _ h

/-- After an insert for an identifier without a record at the start, the record
found is the fresh one. -/
theorem FindOne_pending_succ_of_none {coll : Store} {userId : String} (k : Nat)
    (hu : FindOne coll userId = none) :
    FindOne (pending coll userId (k + 1)) userId = some (recordOf coll userId) := by
  cases h : FindOne (pending coll userId k) userId with
  | some x =>
    have hx := FindOne_pending_eq h
    rw [hx] at h
    exact FindOne_pending_succ h
  | none =>
    rw [pending_succ, FindOne_append_of_none _ h, recordOf_of_none hu]
    exact FindOne_cons_pos [] rfl

/-- A phase that fits stays fitting when one more fresh record is inserted. -/
theorem PhaseOK_succ {coll : Store} {userId : String} {c : Challenge} {k : Nat} {cr : Bool}
    {ph : Phase} (h : PhaseOK coll userId c k cr ph) : PhaseOK coll userId c (k + 1) cr ph := by
  cases ph with
  | start => trivial
  | insert => exact h
  | body u => exact ⟨FindOne_pending_succ h.1, h.2⟩
  | done r => exact h

/-- A phase that fits stays fitting when the credit is stored. -/
theorem PhaseOK_credited {coll : Store} {userId : String} {c : Challenge} {k : Nat} {cr : Bool}
    {ph : Phase} (h : PhaseOK coll userId c k cr ph) : PhaseOK coll userId c k true ph := by
  cases ph with
  | start => trivial
  | insert => exact h
  | body u =>
    refine ⟨h.1, ?_⟩
    rcases h.2 with h2 | h2
    · exact Or.inl h2
    · exact Or.inr ⟨h2.1, rfl⟩
  | done r => exact ⟨h.1, rfl⟩

/-- A property of all phases of a list holds of the list with one phase
replaced by a phase that has it. -/
theorem forall_mem_set {P : Phase → Prop} {l : List Phase} (i : Nat) {p : Phase}
    (hall : ∀ ph ∈ l, P ph) (hp : P p) : ∀ ph ∈ l.set i p, P ph := by
  intro ph h
  rcases List.mem_or_eq_of_mem_set h with h | h
  · exact hall ph h
  · rw [h]; exact hp

/-- The invariant of concurrent submissions survives every scheduling
decision. -/
theorem schedStep_RaceInv {coll : Store} {userId : String} {c : Challenge}
    (hid : userId ≠ "") (hc : c ∈ challenges)
    (hnew : c.level ∉ (recordOf coll userId).SolvedLevels)
    (st : Store × List Phase) (i : Nat) (h : RaceInv coll userId c st) :
    RaceInv coll userId c (schedStep userId c.flag st i) := by
  have hflag := flag_ne_empty_of_mem c hc
  cases hph : st.2[i]? with
  | none =>
    have hs : schedStep userId c.flag st i = st := by simp [schedStep, hph]
    rw [hs]
    exact h
  | some ph =>
    have hs : schedStep userId c.flag st i =
        ((threadStep st.1 noFaults userId c.flag ph).1,
          st.2.set i (threadStep st.1 noFaults userId c.flag ph).2) := by
      simp [schedStep, hph]
    rw [hs]
    obtain ⟨k, cr, hk, hst, hcr, hall⟩ := h
    have hok := hall ph (List.getElem?_mem hph)
    unfold RaceInv
    -- what `FindOne` returns on the current collection
    have hfind : FindOne st.1 userId =
        if cr = true then
          (FindOne (pending coll userId k) userId).map
            (fun u => { u with
              SolvedLevels := (creditedRecord (recordOf coll userId) c).SolvedLevels,
              Score := (creditedRecord (recordOf coll userId) c).Score })
        else FindOne (pending coll userId k) userId := by
      rw [hst]
      cases cr with
      | true => simp only [if_true]; exact FindOne_UpdateOne_same _ _ _ _
      | false => simp
    cases ph with
    | start =>
      cases hu : FindOne st.1 userId with
      | none =>
        have hstep : threadStep st.1 noFaults userId c.flag .start = (st.1, .insert) := by
          simp [threadStep, hid, hflag, noFaults, hu]
        rw [hstep]
        refine ⟨k, cr, hk, hst, hcr, forall_mem_set i hall ?_⟩
        show FindOne coll userId = none
        cases cr with
        | true =>
          rw [hfind, hcr rfl] at hu
          simp at hu
        | false =>
          rw [hfind] at hu
          simp only [Bool.false_eq_true, if_false] at hu
          cases h0 : FindOne coll userId with
          | none => rfl
          | some u =>
            rw [pending, FindOne_append_of_some _ h0] at hu
            exact absurd hu (by simp)
      | some u =>
        have hstep : threadStep st.1 noFaults userId c.flag .start = (st.1, .body u) := by
          simp [threadStep, hid, hflag, noFaults, hu]
        rw [hstep]
        refine ⟨k, cr, hk, hst, hcr, forall_mem_set i hall ?_⟩
        show FindOne (pending coll userId k) userId = some (recordOf coll userId) ∧ _
        cases cr with
        | true =>
          refine ⟨hcr rfl, Or.inr ⟨?_, rfl⟩⟩
          rw [hfind, hcr rfl] at hu
          simp only [if_true, Option.map_some', Option.some.injEq] at hu
          rw [← hu]
          rfl
        | false =>
          rw [hfind] at hu
          simp only [Bool.false_eq_true, if_false] at hu
          have hx := FindOne_pending_eq hu
          rw [hx] at hu
          exact ⟨hu, Or.inl hx⟩
    | insert =>
      have hu0 : FindOne coll userId = none := hok
      have hstep : threadStep st.1 noFaults userId c.flag .insert =
          (st.1 ++ [freshUser userId], .body (freshUser userId)) := by
        simp [threadStep, noFaults, InsertOne, freshUser]
      rw [hstep]
      refine ⟨k + 1, cr, fun hne => absurd hu0 hne, ?_, fun hc1 => FindOne_pending_succ (hcr hc1),
        forall_mem_set i (fun ph hph => PhaseOK_succ (hall ph hph)) ?_⟩
      · show st.1 ++ [freshUser userId] = _
        rw [hst]
        cases cr with
        | true =>
          simp only [if_true]
          rw [pending_succ, UpdateOne_append_of_some _ _ _ (hcr rfl)]
        | false =>
          simp only [Bool.false_eq_true, if_false]
          rw [pending_succ]
      · exact ⟨FindOne_pending_succ_of_none k hu0, Or.inl (recordOf_of_none hu0).symm⟩
    | body u =>
      obtain ⟨hS, hu⟩ := hok
      rcases hu with hu | ⟨hu, hcr1⟩
      · have hnew1 : c.level ∉ u.SolvedLevels := by rw [hu]; exact hnew
        have hstep : threadStep st.1 noFaults userId c.flag (.body u) =
            (UpdateOne st.1 userId (creditedRecord (recordOf coll userId) c).SolvedLevels
                (creditedRecord (recordOf coll userId) c).Score,
              .done (.json ⟨true,
                getCurrentLevelForUser (some (creditedRecord (recordOf coll userId) c))⟩)) := by
          simp only [threadStep]
          rw [checkFlagBody_of_new st.1 noFaults userId u hc hnew1 rfl, hu]
          rfl
        rw [hstep]
        refine ⟨k, true, hk, ?_, fun _ => hS,
          forall_mem_set i (fun ph hph => PhaseOK_credited (hall ph hph)) ⟨rfl, rfl⟩⟩
        show UpdateOne st.1 userId _ _ = _
        rw [hst]
        cases cr with
        | true => simp only [if_true]; exact UpdateOne_idem _ _ _ _
        | false => simp
      · have hsolved : c.level ∈ u.SolvedLevels := by
          rw [hu]
          exact List.mem_append_right _ (List.mem_singleton_self _)
        have hstep : threadStep st.1 noFaults userId c.flag (.body u) =
            (st.1, .done (.json ⟨true,
                getCurrentLevelForUser (some (creditedRecord (recordOf coll userId) c))⟩)) := by
          simp only [threadStep]
          rw [checkFlagBody_of_solved st.1 noFaults userId u hc hsolved, hu]
        rw [hstep]
        exact ⟨k, cr, hk, hst, hcr, forall_mem_set i hall ⟨rfl, hcr1⟩⟩
    | done r =>
      have hstep : threadStep st.1 noFaults userId c.flag (.done r) = (st.1, .done r) := rfl
      rw [hstep]
      exact ⟨k, cr, hk, hst, hcr, forall_mem_set i hall hok⟩

/-- The invariant of concurrent submissions holds after every schedule. -/
theorem runSchedule_RaceInv {coll : Store} {userId : String} {c : Challenge}
    (hid : userId ≠ "") (hc : c ∈ challenges)
    (hnew : c.level ∉ (recordOf coll userId).SolvedLevels) (n : Nat) (sched : List Nat) :
    RaceInv coll userId c (runSchedule coll userId c.flag n sched) := by
  have hgen : ∀ (sched : List Nat) (st : Store × List Phase), RaceInv coll userId c st →
      RaceInv coll userId c (sched.foldl (schedStep userId c.flag) st) := by
    intro sched
    induction sched with
    | nil => intro st h; exact h
    | cons i rest ih =>
      intro st h
      exact ih _ (schedStep_RaceInv hid hc hnew st i h)
  apply hgen
  refine ⟨0, false, fun _ => rfl, by simp [pending], fun h => absurd h (by decide), ?_⟩
  intro ph hph
  rw [List.eq_of_mem_replicate hph]
  trivial

/-- A step with a working store lowers the rank of a request that has not
answered. -/
theorem rank_threadStep_lt (coll : Store) (userId flag : String) (ph : Phase) :
    (threadStep coll noFaults userId flag ph).2.rank ≤ ph.rank - 1 := by
  cases ph with
  | start =>
    by_cases hbad : userId = "" ∨ flag = ""
    · simp [threadStep, hbad, Phase.rank]
    · cases hu : FindOne coll userId <;> simp [threadStep, hbad, noFaults, hu, Phase.rank]
  | insert => simp [threadStep, noFaults, Phase.rank]
  | body u => simp [threadStep, Phase.rank]
  | done r => simp [threadStep, Phase.rank]

/-- A scheduling decision lowers the rank of the request it picks and leaves
the ranks of the others. -/
theorem rankAt_schedStep (userId flag : String) (st : Store × List Phase) (i j : Nat) :
    rankAt (schedStep userId flag st i).2 j ≤ rankAt st.2 j - (if i = j then 1 else 0) := by
  cases hph : st.2[i]? with
  | none =>
    have hs : schedStep userId flag st i = st := by simp [schedStep, hph]
    rw [hs]
    by_cases hij : i = j
    · subst hij
      simp [rankAt, hph]
    · simp [hij]
  | some ph =>
    have hs : schedStep userId flag st i =
        ((threadStep st.1 noFaults userId flag ph).1,
          st.2.set i (threadStep st.1 noFaults userId flag ph).2) := by
      simp [schedStep, hph]
    rw [hs]
    by_cases hij : i = j
    · subst hij
      have hlt : i < st.2.length := by
        by_contra hge
        rw [List.getElem?_eq_none (by omega)] at hph
        exact absurd hph (by simp)
      have h1 := rank_threadStep_lt st.1 userId flag ph
      simp only [rankAt, List.getElem?_set_self hlt, hph, if_true]
      exact h1
    · simp [rankAt, List.getElem?_set_ne hij, hij]

/-- After a schedule the rank of a request is down by the number of times the
schedule picked it. -/
theorem rankAt_foldl_schedStep (userId flag : String) (more : List Nat)
    (st : Store × List Phase) (j : Nat) :
    rankAt (more.foldl (schedStep userId flag) st).2 j ≤ rankAt st.2 j - more.count j := by
  induction more generalizing st with
  | nil => simp
  | cons i rest ih =>
    have h1 := ih (schedStep userId flag st i)
    have h2 := rankAt_schedStep userId flag st i j
    rw [List.foldl_cons]
    rw [List.count_cons]
    by_cases hij : i = j
    · simp only [hij, if_true, beq_self_eq_true] at h2 ⊢
      rw [hij] at h1
      omega
    · have hb : (i == j) = false := by simpa using hij
      simp only [hij, if_false, hb, Bool.false_eq_true] at h2 ⊢
      omega

/-- Scheduling keeps the number of requests, from any state. -/
theorem length_foldl_schedStep (userId flag : String) (sched : List Nat)
    (st : Store × List Phase) :
    (sched.foldl (schedStep userId flag) st).2.length = st.2.length := by
  induction sched generalizing st with
  | nil => rfl
  | cons i rest ih =>
    rw [List.foldl_cons, ih]
    unfold schedStep
    cases st.2[i]? <;> simp

/-- Scheduling keeps the number of requests. -/
theorem length_runSchedule (coll : Store) (userId flag : String) (n : Nat)
    (sched : List Nat) : (runSchedule coll userId flag n sched).2.length = n := by
  rw [runSchedule, length_foldl_schedStep]
  simp

/-- Every schedule can be run to the end: after three more rounds over all `n`
requests every request has answered. -/
theorem runSchedule_finishes (coll : Store) (userId flag : String) (n : Nat)
    (sched : List Nat) :
    ∀ ph ∈ (runSchedule coll userId flag n
        (sched ++ (List.range n ++ (List.range n ++ List.range n)))).2, ph.isDone = true := by
  intro ph hph
  obtain ⟨j, hj⟩ := List.mem_iff_getElem?.mp hph
  have hlen := length_runSchedule coll userId flag n
    (sched ++ (List.range n ++ (List.range n ++ List.range n)))
  have hjn : j < n := by
    by_contra hge
    rw [List.getElem?_eq_none (by omega)] at hj
    exact absurd hj (by simp)
  have hrank := rankAt_foldl_schedStep userId flag
    (List.range n ++ (List.range n ++ List.range n))
    (runSchedule coll userId flag n sched) j
  have hrun : runSchedule coll userId flag n
      (sched ++ (List.range n ++ (List.range n ++ List.range n))) =
      (List.range n ++ (List.range n ++ List.range n)).foldl (schedStep userId flag)
        (runSchedule coll userId flag n sched) := by
    simp [runSchedule, List.foldl_append]
  rw [← hrun] at hrank
  have hcount : (List.range n ++ (List.range n ++ List.range n)).count j = 3 := by
    have h1 : (List.range n).count j = 1 :=
      List.count_eq_one_of_mem (List.nodup_range n) (List.mem_range.mpr hjn)
    simp [List.count_append, h1]
  have hle : rankAt (runSchedule coll userId flag n sched).2 j ≤ 3 := by
    unfold rankAt
    cases (runSchedule coll userId flag n sched).2[j]? with
    | none => simp
    | some q => cases q <;> simp [Phase.rank]
  have h0 : ph.rank = 0 := by
    have : rankAt (runSchedule coll userId flag n
        (sched ++ (List.range n ++ (List.range n ++ List.range n)))).2 j = ph.rank := by
      simp [rankAt, hj]
    omega
  cases ph <;> simp_all [Phase.rank, Phase.isDone]

/-- Claim C9: let any number `n > 0` of first-time submissions of the flag of a
catalog challenge `c` for one user run concurrently with a working store, their
driver calls interleaved in any order `sched`.  At every moment the collection
is the starting one with some fresh records of the identifier appended (none
when the user had a record), with the credit either not yet stored or stored
once in the user's first record.  Every interleaving can be run to the end.
And when all requests have answered, the credit is stored: the record found for
the user lists the old levels followed by `c.level`, which it lists exactly
once, its score is the old score with `c.points` added once (in `int`
arithmetic; the exact sum when that is within the range of `int`), and every
request has answered `correct: true` with the level of that record. -/
theorem concurrent_first_solve_credited_once (coll : Store) (userId : String)
    (c : Challenge) (n : Nat) (sched : List Nat)
    (hid : userId ≠ "") (hc : c ∈ challenges)
    (hnew : c.level ∉ (recordOf coll userId).SolvedLevels) (hn : 0 < n) :
    (∃ k, (FindOne coll userId ≠ none → k = 0) ∧
      ((runSchedule coll userId c.flag n sched).1 =
          coll ++ List.replicate k (freshUser userId) ∨
        (runSchedule coll userId c.flag n sched).1 =
          UpdateOne (coll ++ List.replicate k (freshUser userId)) userId
            ((recordOf coll userId).SolvedLevels ++ [c.level])
            (wrap64 ((recordOf coll userId).Score + c.points)))) ∧
    (∃ more, ∀ ph ∈ (runSchedule coll userId c.flag n (sched ++ more)).2,
      ph.isDone = true) ∧
    ((∀ ph ∈ (runSchedule coll userId c.flag n sched).2, ph.isDone = true) →
      (∃ k, (FindOne coll userId ≠ none → k = 0) ∧
        (runSchedule coll userId c.flag n sched).1 =
          UpdateOne (coll ++ List.replicate k (freshUser userId)) userId
            ((recordOf coll userId).SolvedLevels ++ [c.level])
            (wrap64 ((recordOf coll userId).Score + c.points))) ∧
      ∃ new : User,
        FindOne (runSchedule coll userId c.flag n sched).1 userId = some new ∧
        new.SolvedLevels = (recordOf coll userId).SolvedLevels ++ [c.level] ∧
        new.SolvedLevels.count c.level = 1 ∧
        new.Score = wrap64 ((recordOf coll userId).Score + c.points) ∧
        (IsInt64 ((recordOf coll userId).Score + c.points) →
          new.Score = (recordOf coll userId).Score + c.points) ∧
        ∀ ph ∈ (runSchedule coll userId c.flag n sched).2,
          ph = .done (.json ⟨true, getCurrentLevelForUser (some new)⟩)) := by
  obtain ⟨k, cr, hk, hst, hcr, hall⟩ := runSchedule_RaceInv hid hc hnew n sched
  refine ⟨⟨k, hk, ?_⟩, ⟨_, runSchedule_finishes coll userId c.flag n sched⟩, ?_⟩
  · rw [hst]
    cases cr with
    | true => right; rfl
    | false => left; rfl
  · intro hdone
    -- some request has answered, so the credit is stored
    have hlen := length_runSchedule coll userId c.flag n sched
    have hex : ∃ ph, ph ∈ (runSchedule coll userId c.flag n sched).2 := by
      cases hl : (runSchedule coll userId c.flag n sched).2 with
      | nil => rw [hl] at hlen; simp at hlen; omega
      | cons ph rest => exact ⟨ph, List.mem_cons_self _ _⟩
    have hans : ∀ ph ∈ (runSchedule coll userId c.flag n sched).2,
        ph = .done (.json ⟨true,
          getCurrentLevelForUser (some (creditedRecord (recordOf coll userId) c))⟩) ∧
        cr = true := by
      intro ph hph
      have hok := hall ph hph
      have hd := hdone ph hph
      cases ph with
      | start => simp [Phase.isDone] at hd
      | insert => simp [Phase.isDone] at hd
      | body u => simp [Phase.isDone] at hd
      | done r =>
        obtain ⟨hr, hc1⟩ := hok
        exact ⟨by rw [hr], hc1⟩
    obtain ⟨ph0, hph0⟩ := hex
    have hcr1 : cr = true := (hans ph0 hph0).2
    rw [hcr1] at hst
    simp only [if_true] at hst
    refine ⟨⟨k, hk, hst⟩, creditedRecord (recordOf coll userId) c, ?_, rfl, ?_, rfl, ?_,
      fun ph hph => (hans ph hph).1⟩
    · rw [hst, FindOne_UpdateOne_same, hcr hcr1]
      rfl
    · show ((recordOf coll userId).SolvedLevels ++ [c.level]).count c.level = 1
      rw [List.count_append, List.count_eq_zero_of_not_mem hnew]
      simp
    · intro hrange
      exact wrap64_of_IsInt64 hrange

/-- Claim C9 at the race itself: two submissions of the flag of level 7 for a
user who solved level 1, where both read the record before either writes
(request 0 reads, request 1 reads, request 0 writes, request 1 writes).  Both
have answered `correct: true` with level 8, and the record is credited once:
score 500, levels [1, 7]. -/
theorem concurrent_first_solve_credited_once_witness :
    "bob" ≠ "" ∧ (⟨7, "flag{pwn_it}", 400⟩ : Challenge) ∈ challenges ∧
    (7 : Int) ∉ (recordOf [⟨"bob", "", 100, [1]⟩] "bob").SolvedLevels ∧ 0 < 2 ∧
    (∀ ph ∈ (runSchedule [⟨"bob", "", 100, [1]⟩] "bob" "flag{pwn_it}" 2 [0, 1, 0, 1]).2,
      ph.isDone = true) ∧
    runSchedule [⟨"bob", "", 100, [1]⟩] "bob" "flag{pwn_it}" 2 [0, 1, 0, 1] =
      ([⟨"bob", "", 500, [1, 7]⟩],
        [.done (.json ⟨true, 8⟩), .done (.json ⟨true, 8⟩)]) ∧
    ∃ new : User,
      FindOne (runSchedule [⟨"bob", "", 100, [1]⟩] "bob"
        (⟨7, "flag{pwn_it}", 400⟩ : Challenge).flag 2 [0, 1, 0, 1]).1 "bob" = some new ∧
      new.SolvedLevels = (recordOf [⟨"bob", "", 100, [1]⟩] "bob").SolvedLevels ++
        [(⟨7, "flag{pwn_it}", 400⟩ : Challenge).level] ∧
      new.SolvedLevels.count (⟨7, "flag{pwn_it}", 400⟩ : Challenge).level = 1 ∧
      new.Score = wrap64 ((recordOf [⟨"bob", "", 100, [1]⟩] "bob").Score +
        (⟨7, "flag{pwn_it}", 400⟩ : Challenge).points) ∧
      (IsInt64 ((recordOf [⟨"bob", "", 100, [1]⟩] "bob").Score +
          (⟨7, "flag{pwn_it}", 400⟩ : Challenge).points) →
        new.Score = (recordOf [⟨"bob", "", 100, [1]⟩] "bob").Score +
          (⟨7, "flag{pwn_it}", 400⟩ : Challenge).points) ∧
      ∀ ph ∈ (runSchedule [⟨"bob", "", 100, [1]⟩] "bob"
          (⟨7, "flag{pwn_it}", 400⟩ : Challenge).flag 2 [0, 1, 0, 1]).2,
        ph = .done (.json ⟨true, getCurrentLevelForUser (some new)⟩) :=
  ⟨by decide, by decide, by decide, by decide, by decide, by decide,
    ((concurrent_first_solve_credited_once [⟨"bob", "", 100, [1]⟩] "bob"
      ⟨7, "flag{pwn_it}", 400⟩ 2 [0, 1, 0, 1] (by decide) (by decide) (by decide)
      (by decide)).2.2 (by decide)).2⟩

end YashzCTF
